import Mathlib

/-!
Verification of the Listy importer (an Obsidian plugin written in TypeScript).

The development shallowly embeds the plugin's import service
(`src/services/ListyImportService.ts`, the revision with note locking and
template support) and its template utilities (`src/utils/templateUtils.ts`)
over `List Char`, mirroring the JavaScript string operations
(`indexOf`, `includes`, `substring`, regex scans) one-to-one, and proves the
testable properties of the specification against that embedding.

Conventions:
* strings are `List Char`; string literals are converted with `String.toList`;
* JavaScript `Map` objects are association lists with update-in-place
  semantics (`set` on an existing key keeps its position, last value wins);
* `uuidv4()` is modelled by passing the freshly minted token explicitly as a
  parameter: every claim about determinism or token reuse quantifies over it;
* vault I/O is modelled by an association list of `(path, contents)` pairs
  that the batch reads from, and a list of `(path, contents)` writes that the
  batch produces.
-/

namespace Listy

/-- Text, modelled as a list of characters. -/
abbrev Str := List Char

/-- First index at which `pat` occurs in `s` as a contiguous substring,
mirroring JavaScript `String.prototype.indexOf` (`none` plays the role
of `-1`). -/
def strIndexOf? (s pat : Str) : Option Nat :=
  if pat.isPrefixOf s then some 0
  else
    match s with
    | [] => none
    | _ :: tl => (strIndexOf? tl pat).map (· + 1)

/-- JavaScript `String.prototype.includes`. -/
def strIncludes (s pat : Str) : Bool :=
  (strIndexOf? s pat).isSome

/-- JavaScript `String.prototype.substring`: negative arguments cannot arise
here (indices are `Nat`), out-of-range arguments are clamped to the length,
and the two arguments are swapped when given in decreasing order. -/
def jsSubstring (s : Str) (a b : Nat) : Str :=
  let a' := min a s.length
  let b' := min b s.length
  (s.take (max a' b')).drop (min a' b')

/-- Whitespace as matched by JavaScript `trim` / `\s` (the ASCII part, plus
no-break space; the exotic Unicode space characters never appear in the
documents this development reasons about). -/
def isJsSpace (c : Char) : Bool :=
  " \t\n\r\x0b\x0c\u00A0".toList.contains c

/-- JavaScript `String.prototype.trim`. -/
def jsTrim (s : Str) : Str :=
  ((s.dropWhile isJsSpace).reverse.dropWhile isJsSpace).reverse

/-- ASCII lower-casing of one character (JavaScript `toLowerCase`; the
documents and keys we reason about are ASCII). -/
def lcChar (c : Char) : Char :=
  if 'A' ≤ c ∧ c ≤ 'Z' then Char.ofNat (c.toNat + 32) else c

/-- ASCII upper-casing of one character (JavaScript `toUpperCase`). -/
def ucChar (c : Char) : Char :=
  if 'a' ≤ c ∧ c ≤ 'z' then Char.ofNat (c.toNat - 32) else c

/-- JavaScript `toLowerCase` on a string. -/
def lcStr (s : Str) : Str := s.map lcChar

/-- JavaScript `toUpperCase` on a string. -/
def ucStr (s : Str) : Str := s.map ucChar

/-- Does `pat` match at the start of `s`, comparing case-insensitively?
This is how a `/.../i` regular expression with a literal pattern tests one
position. -/
def matchesCI : Str → Str → Bool
  | [], _ => true
  | _ :: _, [] => false
  | p :: ps, c :: cs => (lcChar p == lcChar c) && matchesCI ps cs

/-- Scan of `s.replace(/pat/gi, repl)`: the first argument counts characters
still to be skipped because they belong to the occurrence just replaced
(matches are non-overlapping and the replacement text is never rescanned).
One character is consumed per step, so the definition is structural and
reduces in the kernel. -/
def replaceAllCIAux (pat repl : Str) : Nat → Str → Str
  | _, [] => []
  | skip + 1, _ :: cs => replaceAllCIAux pat repl skip cs
  | 0, c :: cs =>
    if !pat.isEmpty && matchesCI pat (c :: cs) then
      repl ++ replaceAllCIAux pat repl (pat.length - 1) cs
    else c :: replaceAllCIAux pat repl 0 cs

/-- JavaScript `s.replace(/pat/gi, repl)` for a literal pattern `pat`:
scan left to right, replace each (non-overlapping) case-insensitive
occurrence, and never rescan the replacement text. -/
def replaceAllCI (pat repl s : Str) : Str :=
  replaceAllCIAux pat repl 0 s

/-! ### Data model (`src/models/ListyTypes.ts`) -/

/-- One `attributes` entry of a Listy item: a `(key, value)` string pair. -/
structure ListyAttribute where
  key : Str
  value : Str
deriving DecidableEq

/-- One importable Listy item.  A missing `attributes` array is modelled as
`[]`: the TypeScript code only ever iterates over it or checks that it is
non-empty, so `undefined` and `[]` are indistinguishable. -/
structure ListyItem where
  title : Str
  type : Str
  url : Option Str
  dateAdded : Str
  marked : Bool
  attributes : List ListyAttribute
deriving DecidableEq

/-- One Listy list. -/
structure ListyList where
  icon : Str
  title : Str
  type : Str
  create : Str
  update : Str
  items : List ListyItem
deriving DecidableEq

/-- The import root.  `lists = none` models a JSON object whose `lists`
field is missing or is not an array. -/
structure ListyData where
  lists : Option (List ListyList)

/-- The plugin settings consumed by the import service
(`src/settings/Settings.ts`, interface `ListyImporterSettings`).  The
template file path is replaced by the resolved template text `tpl`, passed
separately, since template loading is vault I/O. -/
structure Settings where
  outputFolder : Str
  consolidateToDoLists : Bool
  includeTags : Bool
  tagReplacement : Str
  enableNoteLocking : Bool
  maxTitleLength : Nat

/-! ### Small string helpers shared by the service -/

/-- Expansion of one character under `escapeYamlString`.  The TypeScript
function is a chain of five global replaces (backslash, quote, newline,
carriage return, tab); since no later pass ever rewrites a character
introduced by an earlier pass, the chain is exactly this per-character
expansion. -/
def escChar (c : Char) : Str :=
  if c == '\\' then "\\\\".toList
  else if c == '"' then "\\\"".toList
  else if c == '\n' then "\\n".toList
  else if c == '\r' then "\\r".toList
  else if c == '\t' then "\\t".toList
  else [c]

/-- `escapeYamlString` from the service. -/
def escapeYamlString (s : Str) : Str :=
  (s.map escChar).flatten

/-- A double-quoted, escaped scalar as emitted into the frontmatter. -/
def q (s : Str) : Str :=
  '"' :: (escapeYamlString s ++ ['"'])

/-- Replacement of one character under `sanitizeFileName`'s chain of global
replaces: `/ \ : * ? < > | =` become `-`, the double quote becomes a single
quote, and NUL and `#` are deleted. -/
def sanChar (c : Char) : Str :=
  if c = '/' then ['-']
  else if c = '\\' then ['-']
  else if c = ':' then ['-']
  else if c = '*' then ['-']
  else if c = '?' then ['-']
  else if c = '"' then ['\'']
  else if c = '<' then ['-']
  else if c = '>' then ['-']
  else if c = '|' then ['-']
  else if c = '=' then ['-']
  else if c = '\x00' then []
  else if c = '#' then []
  else [c]

/-- `sanitizeFileName` from the service: character replacements, trim,
hidden-file protection (a leading dot is prefixed with an underscore) and
truncation to the configured maximum length with a three-character ellipsis.
JavaScript's `substring(0, maxLength - 3)` on a negative argument yields the
empty string, which agrees with truncated `Nat` subtraction. -/
def sanitizeFileName (maxLen : Nat) (fileName : Str) : Str :=
  let s := jsTrim ((fileName.map sanChar).flatten)
  let s := if s.head? = some '.' then '_' :: s else s
  if maxLen < s.length then s.take (maxLen - 3) ++ ['.', '.', '.'] else s

/-- `processDescription` from the service: every `#` is replaced by the
configured replacement text (`$`-escape sequences in the replacement are not
modelled; none of the claims involve them). -/
def processDescription (cfg : Settings) (s : Str) : Str :=
  (s.map fun c => if c = '#' then cfg.tagReplacement else [c]).flatten

/-- Helper for `squashWs`: the flag records whether the previous character
was part of a whitespace run that has already produced its `-`. -/
def squashWsAux : Bool → Str → Str
  | _, [] => []
  | inRun, c :: cs =>
    if isJsSpace c then
      (if inRun then [] else ['-']) ++ squashWsAux true cs
    else c :: squashWsAux false cs

/-- Runs of JavaScript whitespace collapsed to a single `-`
(the `replace(/\s+/g, '-')` step of the tag normalisation). -/
def squashWs (s : Str) : Str := squashWsAux false s

/-- Indentation of a block scalar: every newline inside the value is
followed by two spaces (`value.replace(/\n/g, '\n  ')`). -/
def indentBlock (s : Str) : Str :=
  (s.map fun c => if c = '\n' then ['\n', ' ', ' '] else [c]).flatten

/-! ### The association-list model of a JavaScript `Map` -/

/-- `Map.set`: update the value in place when the key is present (the entry
keeps its position in iteration order), append otherwise. -/
def amapSet (m : List (Str × Str)) (k v : Str) : List (Str × Str) :=
  match m with
  | [] => [(k, v)]
  | (k', v') :: rest =>
    if k' = k then (k', v) :: rest else (k', v') :: amapSet rest k v

/-- `Map.get`. -/
def amapGet (m : List (Str × Str)) (k : Str) : Option Str :=
  (m.find? fun e => e.1 = k).map Prod.snd

/-- `Map.has`. -/
def amapHas (m : List (Str × Str)) (k : Str) : Bool :=
  (amapGet m k).isSome

/-- `Map.delete`. -/
def amapDel (m : List (Str × Str)) (k : Str) : List (Str × Str) :=
  m.filter fun e => ¬ e.1 = k

/-- The attribute lookup built at the top of `generateFrontmatter`: keys are
lower-cased and, for duplicate keys, the last occurrence wins while the
entry keeps its first-insertion position. -/
def buildAttrMap (attrs : List ListyAttribute) : List (Str × Str) :=
  attrs.foldl (fun m a => amapSet m (lcStr a.key) a.value) []

/-! ### Markers and token extraction -/

/-- The fixed instructional placeholder put into a fresh user-comment zone
(`USER_COMMENT_PLACEHOLDER`). -/
def PH : Str :=
  "%% Here you can type whatever you want, it will not be overwritten by the plugin. %%".toList

/-- The `\n\n` glue used throughout note assembly. -/
def nn : Str := ['\n', '\n']

/-- A marker string: `%%` + core + `%%`.  Exposing the leading two `%` as
`cons` cells keeps the occurrence analysis below readable. -/
def marked (core : Str) : Str := '%' :: '%' :: core ++ ['%', '%']

/-- The outer start marker `%%START-token%%`. -/
def sbm (t : Str) : Str := marked ("START-".toList ++ t)

/-- The content start marker `%%START-EXTRACTED-CONTENT-token%%`. -/
def scm (t : Str) : Str := marked ("START-EXTRACTED-CONTENT-".toList ++ t)

/-- The content end marker `%%END-EXTRACTED-CONTENT-token%%`. -/
def ecm (t : Str) : Str := marked ("END-EXTRACTED-CONTENT-".toList ++ t)

/-- The outer end marker `%%END-token%%`. -/
def ebm (t : Str) : Str := marked ("END-".toList ++ t)

/-- The character class `[0-9a-f-]` of the token-extraction pattern. -/
def hexTokChars : Str := "0123456789abcdef-".toList

/-- Membership in the `[0-9a-f-]` class. -/
def isHexTok (c : Char) : Bool := hexTokChars.contains c

/-- Tokens actually minted by `uuidv4()`: non-empty strings over
`[0-9a-f-]`. -/
def tokenOk (t : Str) : Bool := (!t.isEmpty) && t.all isHexTok

/-- Backtracking step of the `%%START-([0-9a-f-]+)%%` match at one position:
having seen a maximal class run of length `k` after `%%START-`, the greedy
engine tries run lengths `k, k-1, …, 1` until `%%` follows. -/
def shrinkRun (rest : Str) : Nat → Option Nat
  | 0 => none
  | k + 1 =>
    if ['%', '%'].isPrefixOf (rest.drop (k + 1)) then some (k + 1)
    else shrinkRun rest k

/-- Attempt of the token pattern at the current position. -/
def tryToken (s : Str) : Option Str :=
  if "%%START-".toList.isPrefixOf s then
    let rest := s.drop 8
    match shrinkRun rest (rest.takeWhile isHexTok).length with
    | some k => some (rest.take k)
    | none => none
  else none

/-- `extractItemId`: the first match of `/%%START-([0-9a-f-]+)%%/` in the
document, scanning positions left to right. -/
def extractItemId : Str → Option Str
  | [] => none
  | s@(_ :: tl) =>
    match tryToken s with
    | some t => some t
    | none => extractItemId tl

/-! ### The lock scan (`/^lock:\s*true/m`) -/

/-- The lock pattern tested at one line start: `lock:` then whitespace
(which, per JavaScript `\s`, may include line breaks) then `true`. -/
def lockHere (s : Str) : Bool :=
  "lock:".toList.isPrefixOf s &&
    "true".toList.isPrefixOf ((s.drop 5).dropWhile isJsSpace)

/-- Scan helper: `atStart` records whether the current position begins a
line. -/
def lockMatchAux : Str → Bool → Bool
  | [], _ => false
  | s@(c :: cs), atStart => (atStart && lockHere s) || lockMatchAux cs (c == '\n')

/-- Does the document match `/^lock:\s*true/m`? -/
def lockMatch (s : Str) : Bool := lockMatchAux s true

/-! ### Frontmatter generation (`generateFrontmatter`) -/

/-- The known-field section of the frontmatter: `description`, `author`,
`cover`, `tags` (+ `original_tags`), `icon`, in this order, each consuming
its map entry, followed by the remaining attributes in map iteration
order. -/
def attrSection (cfg : Settings) (attrs : List ListyAttribute) : Str :=
  if attrs.isEmpty then []
  else
    let m := buildAttrMap attrs
    let descPart :=
      match amapGet m "description".toList with
      | some d =>
        "description: |\n  ".toList ++
          indentBlock (processDescription cfg d) ++ ['\n']
      | none => []
    let m := amapDel m "description".toList
    let authorPart :=
      match amapGet m "author".toList with
      | some a => "author: ".toList ++ q a ++ ['\n']
      | none => []
    let m := amapDel m "author".toList
    let coverPart :=
      match amapGet m "cover".toList with
      | some cvr => "cover: ".toList ++ q cvr ++ ['\n']
      | none => []
    let m := amapDel m "cover".toList
    let tagsPart :=
      match amapGet m "tags".toList with
      | some tv =>
        let obsidianTags :=
          if cfg.includeTags then
            let tags :=
              ((tv.splitOn ',').map fun tg => squashWs (jsTrim tg)).filter
                fun tg => tg.length > 0
            if tags.length > 0 then
              "tags:\n".toList ++
                (tags.map fun tg => "  - ".toList ++ q tg ++ ['\n']).flatten
            else []
          else []
        obsidianTags ++ "original_tags: ".toList ++ q tv ++ ['\n']
      | none => []
    let m := amapDel m "tags".toList
    let iconPart :=
      match amapGet m "icon".toList with
      | some ic => "icon: ".toList ++ q ic ++ ['\n']
      | none => []
    let m := amapDel m "icon".toList
    let restPart :=
      (m.map fun e =>
        if e.2.contains '\n' || e.2.length > 80 then
          e.1 ++ ": |\n  ".toList ++ indentBlock e.2 ++ ['\n']
        else e.1 ++ ": ".toList ++ q e.2 ++ ['\n']).flatten
    descPart ++ authorPart ++ coverPart ++ tagsPart ++ iconPart ++ restPart

/-- `generateFrontmatter`: the YAML header between the two `---` fences. -/
def generateFrontmatter (cfg : Settings) (item : ListyItem) (list : ListyList) : Str :=
  "---\nsource: listy\nlist: ".toList ++ q list.title ++ ['\n'] ++
    "dateAdded: ".toList ++ item.dateAdded ++ ['\n'] ++
    (match item.url with
     | some u => "url: ".toList ++ q u ++ ['\n']
     | none => []) ++
    "type: ".toList ++ lcStr item.type ++ ['\n'] ++
    attrSection cfg item.attributes ++
    "marked: ".toList ++ (if item.marked then "true".toList else "false".toList) ++ ['\n'] ++
    (if cfg.enableNoteLocking then "lock: false\n".toList else []) ++
    "---\n\n".toList

/-! ### Template utilities (`src/utils/templateUtils.ts`) -/

/-- The built-in `DEFAULT_TEMPLATE` (braces written with hex escapes). -/
def DEFAULT_TEMPLATE : Str :=
  ("# \x7b\x7bTitle\x7d\x7d\n\n[Visit Original Source](\x7b\x7bURL\x7d\x7d)\n\n## Description\n\n\x7b\x7bDescription\x7d\x7d\n\n![Cover Image](\x7b\x7bCover\x7d\x7d)\n\n## Notes\n\n\x7b\x7bUserNote\x7d\x7d").toList

/-- A `\w` word character (`[A-Za-z0-9_]`). -/
def isWordChar (c : Char) : Bool :=
  ('A' ≤ c && c ≤ 'Z') || ('a' ≤ c && c ≤ 'z') || ('0' ≤ c && c ≤ '9') || c == '_'

/-- Match of `/\x7b\x7bATTR:([\w_]+)\x7d\x7d/i` at the current position:
returns the total match length and the captured key.  The greedy key run
needs no backtracking because `\x7d` is not a word character. -/
def matchAttrAt (s : Str) : Option (Nat × Str) :=
  if matchesCI "\x7b\x7bATTR:".toList s then
    let key := (s.drop 7).takeWhile isWordChar
    if !key.isEmpty && "\x7d\x7d".toList.isPrefixOf (s.drop (7 + key.length)) then
      some (9 + key.length, key)
    else none
  else none

/-- `regex.exec` for the generic-attribute pattern: the leftmost match whose
start is at or after `fromIdx` (the regex object's `lastIndex`). -/
def execAttrAux : Str → Nat → Option (Nat × Nat × Str)
  | [], _ => none
  | s@(_ :: tl), i =>
    match matchAttrAt s with
    | some (len, key) => some (i, len, key)
    | none => execAttrAux tl (i + 1)

/-- See `execAttrAux`. -/
def execAttr (s : Str) (fromIdx : Nat) : Option (Nat × Nat × Str) :=
  execAttrAux (s.drop fromIdx) fromIdx

/-- The `while ((match = attrRegex.exec(result)) !== null)` loop of
`applyTemplateTransformations`, including the stateful `lastIndex` carried
across iterations while `result` is reassigned (this interplay is what makes
the loop skip placeholders, see claim C7).  The loop is run on explicit
fuel: the modelled executions in this development all terminate well within
it, but the JavaScript loop itself can diverge when substituted attribute
values keep introducing new `ATTR` placeholders. -/
def attrLoop (attrs : List ListyAttribute) : Nat → Str → Nat → Str
  | 0, s, _ => s
  | fuel + 1, s, lastIdx =>
    match execAttr s lastIdx with
    | none => s
    | some (i, len, key) =>
      let repl :=
        match attrs.find? fun a => ucStr a.key = ucStr key with
        | some a => a.value
        | none => []
      attrLoop attrs fuel
        (replaceAllCI ("\x7b\x7bATTR:".toList ++ key ++ "\x7d\x7d".toList) repl s)
        (i + len)

/-- `result.replace(/\x7b\x7bATTR:[\w_]+\x7d\x7d/gi, "")`: one global pass
removing every generic-attribute placeholder (the empty-attributes
branch). -/
def wipeAttrAllAux : Nat → Str → Str
  | _, [] => []
  | skip + 1, _ :: cs => wipeAttrAllAux skip cs
  | 0, c :: cs =>
    match matchAttrAt (c :: cs) with
    | some (len, _) => wipeAttrAllAux (len - 1) cs
    | none => c :: wipeAttrAllAux 0 cs

/-- See `wipeAttrAllAux` (skip-counter scan, one character per step). -/
def wipeAttrAll (s : Str) : Str := wipeAttrAllAux 0 s

/-- The first attribute whose upper-cased key equals `key`, as a value
(empty when absent): `item.attributes.find(attr => attr.key.toUpperCase()
=== key)`. -/
def attrValCI (attrs : List ListyAttribute) (key : Str) : Str :=
  match attrs.find? fun a => ucStr a.key = key with
  | some a => a.value
  | none => []

/-- `applyTemplateTransformations`: the eight entity placeholders, then
either the eight attribute placeholders plus the generic `ATTR` loop (when
the item has attributes) or a wipe of all attribute placeholders, then a
final trim. -/
def applyTemplateTransformations (tpl : Str) (item : ListyItem) (list : ListyList) : Str :=
  let r := replaceAllCI "\x7b\x7bTitle\x7d\x7d".toList item.title tpl
  let r := replaceAllCI "\x7b\x7bURL\x7d\x7d".toList (item.url.getD []) r
  let r := replaceAllCI "\x7b\x7bType\x7d\x7d".toList item.type r
  let r := replaceAllCI "\x7b\x7bDateAdded\x7d\x7d".toList item.dateAdded r
  let r := replaceAllCI "\x7b\x7bListTitle\x7d\x7d".toList list.title r
  let r := replaceAllCI "\x7b\x7bListType\x7d\x7d".toList list.type r
  let r := replaceAllCI "\x7b\x7bCreate\x7d\x7d".toList list.create r
  let r := replaceAllCI "\x7b\x7bUpdate\x7d\x7d".toList list.update r
  let r :=
    if !item.attributes.isEmpty then
      let r := replaceAllCI "\x7b\x7bDescription\x7d\x7d".toList
        (attrValCI item.attributes "DESCRIPTION".toList) r
      let r := replaceAllCI "\x7b\x7bCover\x7d\x7d".toList
        (attrValCI item.attributes "COVER".toList) r
      let r := replaceAllCI "\x7b\x7bUserNote\x7d\x7d".toList
        (attrValCI item.attributes "USER_NOTE".toList) r
      let r := replaceAllCI "\x7b\x7bAuthor\x7d\x7d".toList
        (attrValCI item.attributes "AUTHOR".toList) r
      let r := replaceAllCI "\x7b\x7bGenre\x7d\x7d".toList
        (attrValCI item.attributes "GENRE".toList) r
      let r := replaceAllCI "\x7b\x7bRating\x7d\x7d".toList
        (attrValCI item.attributes "RATING".toList) r
      let r := replaceAllCI "\x7b\x7bDate\x7d\x7d".toList
        (attrValCI item.attributes "DATE".toList) r
      let r := replaceAllCI "\x7b\x7bPrice\x7d\x7d".toList
        (attrValCI item.attributes "PRICE".toList) r
      attrLoop item.attributes (r.length + 1) r 0
    else
      let r := replaceAllCI "\x7b\x7bDescription\x7d\x7d".toList [] r
      let r := replaceAllCI "\x7b\x7bCover\x7d\x7d".toList [] r
      let r := replaceAllCI "\x7b\x7bUserNote\x7d\x7d".toList [] r
      let r := replaceAllCI "\x7b\x7bAuthor\x7d\x7d".toList [] r
      let r := replaceAllCI "\x7b\x7bGenre\x7d\x7d".toList [] r
      let r := replaceAllCI "\x7b\x7bRating\x7d\x7d".toList [] r
      let r := replaceAllCI "\x7b\x7bDate\x7d\x7d".toList [] r
      let r := replaceAllCI "\x7b\x7bPrice\x7d\x7d".toList [] r
      wipeAttrAll r
  jsTrim r

/-! ### Note generation and the marker-based merge -/

/-- `generateItemContent`: the item's title is sanitised and truncated, the
description attribute is passed through `processDescription`, and the result
is substituted into the template. -/
def generateItemContent (cfg : Settings) (tpl : Str) (item : ListyItem) (list : ListyList) : Str :=
  let st := sanitizeFileName cfg.maxTitleLength item.title
  let st := st.take cfg.maxTitleLength
  let st :=
    if st.length = cfg.maxTitleLength then
      st.take (cfg.maxTitleLength - 3) ++ "...".toList
    else st
  let attrs := item.attributes.map fun a =>
    if lcStr a.key = "description".toList then
      { a with value := processDescription cfg a.value }
    else a
  applyTemplateTransformations tpl { item with title := st, attributes := attrs } list

/-- The fresh-document branch of `generateNoteContent`: frontmatter, outer
start marker, placeholder zone, content markers around the rendered body,
placeholder zone, outer end marker. -/
def freshNote (cfg : Settings) (tpl : Str) (item : ListyItem) (list : ListyList)
    (tok : Str) : Str :=
  generateFrontmatter cfg item list ++
    sbm tok ++ nn ++ PH ++ nn ++ scm tok ++ nn ++
    generateItemContent cfg tpl item list ++
    nn ++ ecm tok ++ nn ++ PH ++ nn ++ ebm tok ++ ['\n']

/-- `updateExistingNote`: when all four markers for the extracted token are
present, splice the regenerated frontmatter and body around the two
preserved user-comment zones; otherwise regenerate from scratch (with the
fresh token `fresh` standing for the new `uuidv4()`).  The `match` arms for
an absent index mirror the code's redundant `=== -1` re-check; they are
unreachable when the `includes` guard has passed. -/
def updateExistingNote (cfg : Settings) (tpl : Str) (item : ListyItem) (list : ListyList)
    (existing : Str) (t : Str) (fresh : Str) : Str :=
  let SB := sbm t
  let EB := ebm t
  let SC := scm t
  let EC := ecm t
  if strIncludes existing SB && strIncludes existing EB &&
      strIncludes existing SC && strIncludes existing EC then
    match strIndexOf? existing SB, strIndexOf? existing EB,
        strIndexOf? existing SC, strIndexOf? existing EC with
    | some bsi, some ebi, some sci, some eci =>
      let fm := generateFrontmatter cfg item list
      let body := generateItemContent cfg tpl item list
      let blockEndIndex := ebi + EB.length
      let beforeContent := jsSubstring existing (bsi + SB.length) sci
      let afterContent :=
        jsSubstring existing (eci + EC.length) (blockEndIndex - EB.length)
      fm ++ SB ++ beforeContent ++ SC ++ nn ++ body ++ nn ++ EC ++
        afterContent ++ EB ++ ['\n']
    | _, _, _, _ => freshNote cfg tpl item list fresh
  else freshNote cfg tpl item list fresh

/-- `generateNoteContent`: dispatch between update and fresh creation.  An
empty prior document is falsy in JavaScript and is treated as absent. -/
def generateNoteContent (cfg : Settings) (tpl : Str) (item : ListyItem) (list : ListyList)
    (existing : Option Str) (fresh : Str) : Str :=
  match existing with
  | some e =>
    if e.isEmpty then freshNote cfg tpl item list fresh
    else
      match extractItemId e with
      | some t => updateExistingNote cfg tpl item list e t fresh
      | none => freshNote cfg tpl item list fresh
  | none => freshNote cfg tpl item list fresh

/-! ### The consolidated To Do list (`createConsolidatedToDoList`) -/

/-- The first match of `- \[([ x])\] (.*?)$` within one line: scan for the
first position where the full pattern matches and capture the rest of the
line together with the checked flag. -/
def parseTaskLine : Str → Option (Str × Bool)
  | [] => none
  | s@(_ :: tl) =>
    (if "- [".toList.isPrefixOf s then
      match s.drop 3 with
      | c :: rest =>
        if (c == ' ' || c == 'x') && "] ".toList.isPrefixOf rest then
          some (rest.drop 2, c == 'x')
        else none
      | [] => none
    else none).orElse fun _ => parseTaskLine tl

/-- Boolean-valued map for the parsed tasks, same `Map` semantics as
`amapSet`. -/
def bmapSet (m : List (Str × Bool)) (k : Str) (v : Bool) : List (Str × Bool) :=
  match m with
  | [] => [(k, v)]
  | (k', v') :: rest =>
    if k' = k then (k', v) :: rest else (k', v') :: bmapSet rest k v

/-- The `existingTasks` map built by the `taskRegex.exec` loop: the global
multi-line regular expression finds at most one match per line (the capture
always runs to the end of the line), so the matches are exactly the
per-line parses, in order, folded into the `Map`. -/
def parseTasks (s : Str) : List (Str × Bool) :=
  ((s.splitOn '\n').filterMap parseTaskLine).foldl
    (fun m e => bmapSet m e.1 e.2) []

/-- `existingTasks.has(title) && existingTasks.get(title)`. -/
def taskLookup (m : List (Str × Bool)) (k : Str) : Bool :=
  match m.find? fun e => e.1 = k with
  | some e => e.2
  | none => false

/-- One checklist line of the consolidated note. -/
def taskLine (tasks : List (Str × Bool)) (item : ListyItem) : Str :=
  "- [".toList ++
    [if item.marked || taskLookup tasks item.title then 'x' else ' '] ++
    "] ".toList ++ item.title ++ ['\n']

/-- The frontmatter-plus-heading part of the consolidated note. -/
def consolidatedHeader (list : ListyList) : Str :=
  "---\nsource: listy\ntype: todo\nlist: ".toList ++ q list.title ++ ['\n'] ++
    "create: ".toList ++ list.create ++ ['\n'] ++
    "update: ".toList ++ list.update ++ "\n---\n\n# ".toList ++
    list.title ++ nn

/-- The full consolidated note text for a given parsed-task map and token
slot.  `listId = none` models the JavaScript `null` that `extractItemId`
returns when the prior document has no marker: the template literal
stringifies it to the four characters `null`. -/
def consolidatedContent (list : ListyList) (tasks : List (Str × Bool))
    (listId : Option Str) : Str :=
  let tk := listId.getD "null".toList
  consolidatedHeader list ++
    sbm tk ++ nn ++ PH ++ nn ++ scm tk ++ nn ++
    ((list.items.map (taskLine tasks)).flatten) ++
    ['\n'] ++ ecm tk ++ nn ++ PH ++ nn ++ ebm tk ++ ['\n']

/-- `createConsolidatedToDoList`, as a pure function from the optional prior
document to the note text to be written; `none` means the function returned
early because the note is locked, so nothing is written.  An empty prior
document is falsy and treated as absent (a fresh token is minted). -/
def createConsolidatedContent (cfg : Settings) (list : ListyList)
    (existing : Option Str) (freshTok : Str) : Option Str :=
  match existing with
  | some e =>
    if cfg.enableNoteLocking && lockMatch e then none
    else
      some (consolidatedContent list (parseTasks e)
        (if e.isEmpty then some freshTok else extractItemId e))
  | none => some (consolidatedContent list [] (some freshTok))

/-! ### The batch (`processListyData`) -/

/-- A read-only vault: `(path, contents)` pairs. -/
def vaultRead (vault : List (Str × Str)) (p : Str) : Option Str :=
  (vault.find? fun e => e.1 = p).map Prod.snd

/-- The note path of one item (`normalizePath` acts as the identity on the
already-normal paths assembled here). -/
def itemNotePath (cfg : Settings) (list : ListyList) (item : ListyItem) : Str :=
  cfg.outputFolder ++ ['/'] ++ sanitizeFileName cfg.maxTitleLength list.title ++
    ['/'] ++ sanitizeFileName cfg.maxTitleLength item.title ++ ".md".toList

/-- The note path of a consolidated list. -/
def consolidatedPath (cfg : Settings) (list : ListyList) : Str :=
  cfg.outputFolder ++ ['/'] ++ sanitizeFileName cfg.maxTitleLength list.title ++
    ".md".toList

/-- State threaded through the batch: accumulated writes, the
`totalNotesCreated` counter, and the index into the fresh-token supply. -/
structure BatchState where
  writes : List (Str × Str)
  count : Nat
  tick : Nat
deriving DecidableEq

/-- The body of the per-item loop: read the prior document, skip when locked
(no write, no count), otherwise merge and write. -/
def processOneItem (cfg : Settings) (tpl : Str) (vault : List (Str × Str))
    (supply : Nat → Str) (list : ListyList) (item : ListyItem)
    (st : BatchState) : BatchState :=
  let path := itemNotePath cfg list item
  match vaultRead vault path with
  | some prior =>
    if cfg.enableNoteLocking && !prior.isEmpty && lockMatch prior then st
    else
      { writes := st.writes ++
          [(path, generateNoteContent cfg tpl item list (some prior) (supply st.tick))]
        count := st.count + 1
        tick := st.tick + 1 }
  | none =>
    { writes := st.writes ++
        [(path, generateNoteContent cfg tpl item list none (supply st.tick))]
      count := st.count + 1
      tick := st.tick + 1 }

/-- The body of the per-list loop.  Note that the consolidated branch
increments `totalNotesCreated` in the caller even when the consolidated
writer itself skipped a locked note. -/
def processOneList (cfg : Settings) (tpl : Str) (vault : List (Str × Str))
    (supply : Nat → Str) (st : BatchState) (list : ListyList) : BatchState :=
  if list.items.isEmpty then st
  else if list.type = "Tasks".toList && cfg.consolidateToDoLists then
    let path := consolidatedPath cfg list
    match createConsolidatedContent cfg list (vaultRead vault path) (supply st.tick) with
    | some content =>
      { writes := st.writes ++ [(path, content)]
        count := st.count + 1
        tick := st.tick + 1 }
    | none => { st with count := st.count + 1, tick := st.tick + 1 }
  else
    list.items.foldl (fun st item => processOneItem cfg tpl vault supply list item st) st

/-- `processListyData`: reject the input when the `lists` field is missing
or not an array, otherwise process the lists in order and return the writes
together with `totalNotesCreated`. -/
def processListyData (cfg : Settings) (tpl : Str) (vault : List (Str × Str))
    (supply : Nat → Str) (data : ListyData) : Except Str (List (Str × Str) × Nat) :=
  match data.lists with
  | none => .error "Invalid Listy JSON format: missing lists array".toList
  | some lists =>
    let final := lists.foldl (processOneList cfg tpl vault supply) ⟨[], 0, 0⟩
    .ok (final.writes, final.count)

/-! ### Predicates used by the theorems -/

/-- The characters the specification bans from derived filenames. -/
def bannedFileChars : Str :=
  ['/', '\\', ':', '*', '?', '"', '<', '>', '|', '=', '\x00', '#']

/-- No occurrence of `pat` starts inside the `a` part of `a ++ b`. -/
def NoHit (pat a b : Str) : Prop :=
  ∀ i, i < a.length → pat.isPrefixOf ((a ++ b).drop i) = false

/-- Decidable safety check of a zone `Z` against marker patterns whose
third character is `c3`: wherever `Z` has a `%`, either the next character
exists and is not `%`, or the character after that exists and is neither
`%` nor `c3`.  This rules out any marker occurrence starting inside `Z`,
whatever follows `Z`. -/
def zoneSafeChk (c3 : Char) (Z : Str) : Bool :=
  (List.range Z.length).all fun i =>
    !(Z[i]? == some '%') ||
      (match Z[i + 1]? with
       | some d =>
         !(d == '%') ||
           (match Z[i + 2]? with
            | some e => !(e == '%') && !(e == c3)
            | none => false)
       | none => false)

/-- The obligations a user-comment zone `Z` must satisfy so that the marker
search cannot be confused by it: no content/end marker occurrence starts
inside `Z`, and none starts at the `%%` or `%` that immediately precedes
`Z` in the document (the trailing percents of the previous marker). -/
def ZoneOK (t Z : Str) : Prop :=
  (∀ p ∈ [scm t, ecm t, ebm t], ∀ R, NoHit p Z R) ∧
  (∀ p ∈ [scm t, ecm t, ebm t], ∀ E,
    p.isPrefixOf ('%' :: '%' :: (Z ++ '%' :: '%' :: E)) = false) ∧
  (∀ p ∈ [scm t, ecm t, ebm t], ∀ E,
    p.isPrefixOf ('%' :: (Z ++ '%' :: '%' :: E)) = false)

/-- The canonical shape of a document with intact markers: header, outer
start, zone A, content start, glue, body, glue, content end, zone B, outer
end, tail. -/
def spliceDoc (fm0 t A body0 B tail : Str) : Str :=
  fm0 ++ sbm t ++ A ++ scm t ++ nn ++ body0 ++ nn ++ ecm t ++ B ++ ebm t ++ tail

/-- The claim-side reading of C9's prior-state rule: some checklist line of
the prior document has exactly this title and is checked. -/
def specAnyChecked (doc title : Str) : Bool :=
  ((doc.splitOn '\n').filterMap parseTaskLine).any fun e =>
    e.1 = title && e.2

/-- The amended reading: the last checklist line of the prior document with
exactly this title, if any, is checked. -/
def specLastChecked (doc title : Str) : Bool :=
  match ((doc.splitOn '\n').filterMap parseTaskLine).reverse.find? fun e =>
      e.1 = title with
  | some e => e.2
  | none => false

/-! ### Concrete fixtures shared by witnesses and counterexamples -/

/-- Minimal settings: consolidation off, tags off, locking off. -/
def cfgW : Settings := ⟨"o".toList, false, false, [], false, 105⟩

/-- A minimal entry whose generated header and body contain no `%`. -/
def itemW : ListyItem :=
  ⟨"NEW".toList, "Books".toList, none, "d".toList, false, []⟩

/-- A minimal collection. -/
def listW : ListyList :=
  ⟨[], "L".toList, "Books".toList, "c".toList, "u".toList, []⟩

/-- A collection whose title is itself marker text. -/
def listMk : ListyList :=
  ⟨[], "%%START-aa%%".toList, "Books".toList, "c".toList, "u".toList, []⟩

/-- A one-item To Do collection. -/
def listTd : ListyList :=
  ⟨[], "L".toList, "Tasks".toList, "c".toList, "u".toList,
    [⟨"T".toList, "Tasks".toList, none, "d".toList, false, []⟩]⟩

/-- A template consisting of the single placeholder for the title. -/
def tplW : Str := "\x7b\x7bTITLE\x7d\x7d".toList

/-- A tiny prior document with both outer markers for token `ab`. -/
def priorAb : Str := "%%START-ab%%K%%END-ab%%".toList

/-- A prior consolidated document with all four markers intact for token
`ab`, the user text `KEEPME` in both comment zones and a checked task. -/
def priorTd : Str :=
  ("h\n%%START-ab%%\nKEEPME\n%%START-EXTRACTED-CONTENT-ab%%\n- [x] T\n" ++
    "%%END-EXTRACTED-CONTENT-ab%%\nKEEPME\n%%END-ab%%\n").toList

/-! ## General lemmas -/

set_option maxHeartbeats 1000000 in
theorem sanChar_not_banned (c x : Char) (hx : x ∈ sanChar c) :
    x ∉ bannedFileChars := by
  unfold sanChar at hx
  split_ifs at hx
  all_goals simp only [List.mem_singleton, List.not_mem_nil] at hx
  all_goals subst hx
  · decide
  · decide
  · decide
  · decide
  · decide
  · decide
  · decide
  · decide
  · decide
  · decide
  next h1 h2 h3 h4 h5 h6 h7 h8 h9 h10 h11 h12 =>
    intro hb
    simp only [bannedFileChars, List.mem_cons, List.not_mem_nil, or_false] at hb
    rcases hb with rfl | rfl | rfl | rfl | rfl | rfl | rfl | rfl | rfl | rfl | rfl | rfl <;>
      simp_all

theorem mem_of_mem_jsTrim {x : Char} {s : Str} (hx : x ∈ jsTrim s) : x ∈ s := by
  unfold jsTrim at hx
  rw [List.mem_reverse] at hx
  have h1 := (List.dropWhile_sublist (l := (s.dropWhile isJsSpace).reverse) isJsSpace).mem hx
  rw [List.mem_reverse] at h1
  exact (List.dropWhile_sublist isJsSpace).mem h1

theorem sanitizeFileName_chars (maxLen : Nat) (s : Str) :
    ∀ c ∈ sanitizeFileName maxLen s, c ∉ bannedFileChars := by
  intro c hc
  unfold sanitizeFileName at hc
  have base : ∀ x ∈ jsTrim (List.map sanChar s).flatten, x ∉ bannedFileChars := by
    intro x hx
    have hmem := mem_of_mem_jsTrim hx
    rw [List.mem_flatten] at hmem
    obtain ⟨l, hl, hxl⟩ := hmem
    rw [List.mem_map] at hl
    obtain ⟨c2, _, rfl⟩ := hl
    exact sanChar_not_banned c2 x hxl
  generalize jsTrim (List.map sanChar s).flatten = t at hc base
  dsimp only at hc
  have base2 : ∀ x ∈ (if t.head? = some '.' then '_' :: t else t),
      x ∉ bannedFileChars := by
    intro x hx
    by_cases hd : t.head? = some '.'
    · rw [if_pos hd] at hx
      rw [List.mem_cons] at hx
      rcases hx with rfl | hx
      · decide
      · exact base x hx
    · rw [if_neg hd] at hx
      exact base x hx
  generalize (if t.head? = some '.' then '_' :: t else t) = t2 at hc base2
  split at hc
  · rw [List.mem_append] at hc
    rcases hc with hc | hc
    · exact base2 c ((List.take_sublist _ _).mem hc)
    · have hcd : c = '.' := by simpa using hc
      subst hcd; decide
  · exact base2 c hc

theorem sanitizeFileName_head (maxLen : Nat) (s : Str) (hmax : 4 ≤ maxLen) :
    (sanitizeFileName maxLen s).head? ≠ some '.' := by
  unfold sanitizeFileName
  dsimp only
  generalize jsTrim (List.map sanChar s).flatten = t
  have hd2 : (if t.head? = some '.' then '_' :: t else t).head? ≠ some '.' := by
    split
    · simp
    · next h => exact h
  generalize (if t.head? = some '.' then '_' :: t else t) = t2 at hd2
  split
  · next hlen =>
    obtain ⟨c, rest, rfl⟩ : ∃ c rest, t2 = c :: rest := by
      cases t2 with
      | nil => simp only [List.length_nil] at hlen; omega
      | cons c rest => exact ⟨c, rest, rfl⟩
    have h34 : maxLen - 3 = (maxLen - 4) + 1 := by omega
    rw [h34]
    simp only [List.take_succ_cons, List.cons_append, List.head?_cons]
    simpa using hd2
  · exact hd2

theorem sanitizeFileName_length (maxLen : Nat) (s : Str) (hmax : 3 ≤ maxLen) :
    (sanitizeFileName maxLen s).length ≤ maxLen := by
  unfold sanitizeFileName
  dsimp only
  generalize jsTrim (List.map sanChar s).flatten = t
  generalize (if t.head? = some '.' then '_' :: t else t) = t2
  split
  · next hlen =>
    rw [List.length_append, List.length_take]
    simp only [List.length_cons, List.length_nil]
    omega
  · next hlen => omega

/-- C4: the filename-derivation function is pure and total (it is a Lean
function), its output avoids every banned character, never starts with a
dot, and respects the configured maximum length.  The hypothesis
`4 ≤ maxLen` covers every value the settings UI can configure (its slider
is limited to 10-105). -/
theorem claim_C4 (maxLen : Nat) (s : Str) (hmax : 4 ≤ maxLen) :
    (∀ c ∈ sanitizeFileName maxLen s, c ∉ bannedFileChars) ∧
      (sanitizeFileName maxLen s).head? ≠ some '.' ∧
      (sanitizeFileName maxLen s).length ≤ maxLen :=
  ⟨sanitizeFileName_chars maxLen s,
   sanitizeFileName_head maxLen s hmax,
   sanitizeFileName_length maxLen s (by omega)⟩

/-- Witness for C4 at a concrete input exercising every rewrite: slashes,
quotes, a NUL, hashes, leading whitespace and dot, and truncation. -/
theorem claim_C4_witness :
    4 ≤ 10 ∧
      ((∀ c ∈ sanitizeFileName 10 "  .a/b\\c:d*e?f\"g<h>i|j=k\x00l#mmmmmmm".toList,
          c ∉ bannedFileChars) ∧
        (sanitizeFileName 10 "  .a/b\\c:d*e?f\"g<h>i|j=k\x00l#mmmmmmm".toList).head? ≠
          some '.' ∧
        (sanitizeFileName 10 "  .a/b\\c:d*e?f\"g<h>i|j=k\x00l#mmmmmmm".toList).length ≤ 10) :=
  ⟨by omega, claim_C4 10 _ (by omega)⟩

/-! ## Occurrence lemmas for JavaScript string search -/

theorem isPrefixOf_append_self (l r : List Char) : l.isPrefixOf (l ++ r) = true := by
  induction l with
  | nil => simp [List.isPrefixOf]
  | cons c cs ih => simp [List.isPrefixOf, ih]

theorem strIndexOf?_pos {s pat : Str} (h : pat.isPrefixOf s = true) :
    strIndexOf? s pat = some 0 := by
  unfold strIndexOf?
  rw [if_pos h]

theorem strIndexOf?_neg {c : Char} {tl pat : Str}
    (h : pat.isPrefixOf (c :: tl) = false) :
    strIndexOf? (c :: tl) pat = (strIndexOf? tl pat).map (· + 1) := by
  conv_lhs => unfold strIndexOf?
  rw [if_neg (by simp [h])]

theorem strIncludes_mid (a pat b : Str) : strIncludes (a ++ (pat ++ b)) pat = true := by
  induction a with
  | nil =>
    simp [strIncludes, strIndexOf?_pos (isPrefixOf_append_self pat b)]
  | cons c cs ih =>
    rw [List.cons_append]
    by_cases hp : pat.isPrefixOf (c :: (cs ++ (pat ++ b))) = true
    · simp [strIncludes, strIndexOf?_pos hp]
    · rw [Bool.not_eq_true] at hp
      simp only [strIncludes] at ih ⊢
      rw [strIndexOf?_neg hp]
      cases hio : strIndexOf? (cs ++ (pat ++ b)) pat with
      | none => rw [hio] at ih; simp at ih
      | some v => rfl

theorem strIncludes_of_eq (s a pat b : Str) (h : s = a ++ (pat ++ b)) :
    strIncludes s pat = true := h ▸ strIncludes_mid a pat b

/-! ## C7: surviving template placeholders (a code bug) -/

/-- C7: the specification says every recognized placeholder with no data
resolves to the empty string and never survives literally.  The code
violates this: the generic-attribute loop advances the regular expression's
`lastIndex` over a `result` string that the loop keeps replacing, so after
the first replacement shortens the string, the scan resumes past the second
placeholder and leaves it untouched.  With template
`((ATTR:aa))((ATTR:bb))` (braces shown as parentheses here), an item whose
only attribute is `cc`, the output is the literal `((ATTR:bb))`. -/
theorem claim_C7 :
    applyTemplateTransformations
      "\x7b\x7bATTR:aa\x7d\x7d\x7b\x7bATTR:bb\x7d\x7d".toList
      ⟨"t".toList, "T".toList, none, "d".toList, false,
        [⟨"cc".toList, "v".toList⟩]⟩
      ⟨[], "L".toList, "Tasks".toList, "c".toList, "u".toList, []⟩ =
      "\x7b\x7bATTR:bb\x7d\x7d".toList := by
  decide

/-! ## C5: locked notes are skipped -/

/-- C5: with note locking enabled, an item whose prior document matches the
lock pattern is skipped entirely: the per-item step neither writes nor
counts, leaving the batch state unchanged (the prior document is only ever
modified through a write, so it is left untouched). -/
theorem claim_C5 (cfg : Settings) (tpl : Str) (vault : List (Str × Str))
    (supply : Nat → Str) (list : ListyList) (item : ListyItem)
    (st : BatchState) (prior : Str)
    (hlock : cfg.enableNoteLocking = true)
    (hprior : vaultRead vault (itemNotePath cfg list item) = some prior)
    (hne : prior.isEmpty = false)
    (hmatch : lockMatch prior = true) :
    processOneItem cfg tpl vault supply list item st = st := by
  simp only [processOneItem, hprior]
  simp [hlock, hne, hmatch]

/-- Witness for C5: a concrete vault with a locked prior note. -/
theorem claim_C5_witness :
    processOneItem ⟨"o".toList, false, false, [], true, 105⟩ "T".toList
      [("o/L/I.md".toList, "---\nlock: true\n---\n".toList)]
      (fun _ => "aa".toList)
      ⟨[], "L".toList, "Books".toList, "c".toList, "u".toList, []⟩
      ⟨"I".toList, "Books".toList, none, "d".toList, false, []⟩
      ⟨[], 0, 0⟩ = ⟨[], 0, 0⟩ :=
  claim_C5 _ _ _ _ _ _ _ ("---\nlock: true\n---\n".toList)
    rfl (by decide) (by decide) (by decide)

/-! ## C6: input validation and silent skipping -/

/-- C6: the batch fails (with the exact signalled message) if and only if
the `lists` field is missing or not an array, and such a failure produces
no writes at all; a list whose `items` field is missing or empty is skipped
silently, leaving the batch state — writes and count — unchanged. -/
theorem claim_C6 (cfg : Settings) (tpl : Str) (vault : List (Str × Str))
    (supply : Nat → Str) :
    (processListyData cfg tpl vault supply ⟨none⟩ =
      .error "Invalid Listy JSON format: missing lists array".toList) ∧
    (∀ ls, ∃ out, processListyData cfg tpl vault supply ⟨some ls⟩ = .ok out) ∧
    (∀ st list, list.items = [] →
      processOneList cfg tpl vault supply st list = st) := by
  refine ⟨rfl, fun ls => ⟨_, rfl⟩, fun st list h => ?_⟩
  unfold processOneList
  rw [h]
  simp

/-- Witness for C6 at concrete inputs. -/
theorem claim_C6_witness :
    (processListyData ⟨"o".toList, true, false, [], false, 105⟩ "T".toList [] (fun _ => "aa".toList) ⟨none⟩ =
      .error "Invalid Listy JSON format: missing lists array".toList) ∧
    (∃ out, processListyData ⟨"o".toList, true, false, [], false, 105⟩ "T".toList [] (fun _ => "aa".toList)
      ⟨some []⟩ = .ok out) ∧
    (processOneList ⟨"o".toList, true, false, [], false, 105⟩ "T".toList [] (fun _ => "aa".toList)
      ⟨[], 0, 0⟩ ⟨[], "E".toList, "Tasks".toList, "c".toList, "u".toList, []⟩ =
      ⟨[], 0, 0⟩) := by
  obtain ⟨h1, h2, h3⟩ :=
    claim_C6 ⟨"o".toList, true, false, [], false, 105⟩ "T".toList [] (fun _ => "aa".toList)
  exact ⟨h1, h2 [], h3 ⟨[], 0, 0⟩ _ rfl⟩

/-! ## C3: missing content markers fall back to fresh creation -/

/-- C3: when the prior document yields a token (its outer start marker is
present) but at least one of the two content markers for that token is
missing, the merge silently produces exactly the first-time-creation
document (fresh token, fixed placeholders in both zones); the embedding is
total, so no error can be raised. -/
theorem claim_C3 (cfg : Settings) (tpl : Str) (item : ListyItem) (list : ListyList)
    (prior t fresh : Str)
    (hne : prior.isEmpty = false)
    (hex : extractItemId prior = some t)
    (hmiss : strIncludes prior (scm t) = false ∨ strIncludes prior (ecm t) = false) :
    generateNoteContent cfg tpl item list (some prior) fresh =
      generateNoteContent cfg tpl item list none fresh := by
  unfold generateNoteContent
  dsimp only
  rw [hne]
  simp only [Bool.false_eq_true, if_false, hex]
  rcases hmiss with h | h <;>
    · simp only [updateExistingNote, h]
      simp

/-- Witness for C3: a prior document with both outer markers for token `ab`
and no content markers. -/
theorem claim_C3_witness :
    generateNoteContent ⟨"o".toList, true, false, [], false, 105⟩ "T".toList
      ⟨"I".toList, "Books".toList, none, "d".toList, false, []⟩
      ⟨[], "L".toList, "Books".toList, "c".toList, "u".toList, []⟩
      (some "%%START-ab%%x%%END-ab%%".toList) "ff".toList =
    generateNoteContent ⟨"o".toList, true, false, [], false, 105⟩ "T".toList
      ⟨"I".toList, "Books".toList, none, "d".toList, false, []⟩
      ⟨[], "L".toList, "Books".toList, "c".toList, "u".toList, []⟩
      none "ff".toList :=
  claim_C3 _ _ _ _ _ "ab".toList _ (by decide) (by decide)
    (Or.inl (by decide))

/-! ## C9: prior checked state, exact-title matching, last line wins -/

theorem taskLookup_cons (p : Str × Bool) (rest : List (Str × Bool)) (k : Str) :
    taskLookup (p :: rest) k = if p.1 = k then p.2 else taskLookup rest k := by
  unfold taskLookup
  by_cases h : p.1 = k <;> simp [List.find?, h]

theorem taskLookup_bmapSet (m : List (Str × Bool)) (k' : Str) (v : Bool) (k : Str) :
    taskLookup (bmapSet m k' v) k = if k' = k then v else taskLookup m k := by
  induction m with
  | nil =>
    unfold bmapSet
    by_cases h : k' = k <;> simp [taskLookup, List.find?, h]
  | cons p rest ih =>
    unfold bmapSet
    by_cases h1 : p.1 = k'
    · rw [if_pos h1, taskLookup_cons, taskLookup_cons]
      by_cases h2 : k' = k
      · rw [h1, h2]; simp
      · have hpk : ¬ p.1 = k := fun hh => h2 (h1 ▸ hh)
        rw [if_neg hpk, if_neg hpk, if_neg h2]
    · rw [if_neg h1, taskLookup_cons, taskLookup_cons]
      by_cases h3 : p.1 = k
      · rw [if_pos h3]
        by_cases h2 : k' = k
        · exact absurd (h2 ▸ h3) h1
        · rw [if_neg h2, if_pos h3]
      · rw [if_neg h3, ih]
        by_cases h2 : k' = k
        · rw [if_pos h2, if_pos h2]
        · rw [if_neg h2, if_neg h2, if_neg h3]

theorem taskLookup_foldl (ps : List (Str × Bool)) (m : List (Str × Bool)) (k : Str) :
    taskLookup (ps.foldl (fun m e => bmapSet m e.1 e.2) m) k =
      (match ps.reverse.find? (fun e => decide (e.1 = k)) with
       | some e => e.2
       | none => taskLookup m k) := by
  induction ps generalizing m with
  | nil => rfl
  | cons p ps ih =>
    rw [List.foldl_cons, ih, List.reverse_cons, List.find?_append]
    cases hf : ps.reverse.find? (fun e => decide (e.1 = k)) with
    | some e => rfl
    | none =>
      by_cases hp : p.1 = k
      · simp [List.find?, hp, taskLookup_bmapSet]
      · simp [List.find?, hp, taskLookup_bmapSet]

/-- The `Map` built from the prior checklist looks up the state of the
last matching line. -/
theorem parseTasks_lookup (doc k : Str) :
    taskLookup (parseTasks doc) k = specLastChecked doc k := by
  unfold parseTasks specLastChecked
  rw [taskLookup_foldl]
  rfl

/-- C9 (amended): in consolidated mode the regenerated checklist line for an
Entry is checked exactly when the Entry's own done-flag is set or the *last*
checklist line of the prior document whose title is exactly string-equal to
the Entry's title was checked (duplicate titles: the last occurrence wins,
because the `Map` built from the parse overwrites earlier entries). -/
theorem claim_C9 (prior : Str) (item : ListyItem) :
    taskLine (parseTasks prior) item =
      "- [".toList ++
        [if item.marked || specLastChecked prior item.title then 'x' else ' '] ++
        "] ".toList ++ item.title ++ ['\n'] := by
  unfold taskLine
  rw [parseTasks_lookup]

/-- Counterexample to C9 as stated: the prior document contains a checked
line `- [x] A` for the exact title `A` (so the claim requires the
regenerated line to be checked), but a later line `- [ ] A` overwrites the
map entry and the code regenerates the unchecked `- [ ] A`. -/
theorem claim_C9_cex :
    specAnyChecked "- [x] A\n- [ ] A".toList "A".toList = true ∧
      taskLine (parseTasks "- [x] A\n- [ ] A".toList)
        ⟨"A".toList, "Tasks".toList, none, "d".toList, false, []⟩ =
        "- [ ] A\n".toList := by
  decide

/-! ## C10: a marker-less prior consolidated note gets the token `null` -/

/-- C10: in consolidated mode, when a (non-empty, unlocked) prior document
exists but token extraction finds no marker, the note is still produced —
with the literal string `null` embedded in all four markers rather than a
fresh token. -/
theorem claim_C10 (cfg : Settings) (list : ListyList) (prior freshTok : Str)
    (hne : prior.isEmpty = false)
    (hlock : (cfg.enableNoteLocking && lockMatch prior) = false)
    (hex : extractItemId prior = none) :
    createConsolidatedContent cfg list (some prior) freshTok =
      some (consolidatedContent list (parseTasks prior) none) ∧
      (∀ mk ∈ [sbm "null".toList, scm "null".toList,
               ecm "null".toList, ebm "null".toList],
        strIncludes (consolidatedContent list (parseTasks prior) none) mk = true) := by
  constructor
  · unfold createConsolidatedContent
    dsimp only
    rw [hlock, hne, hex]
    simp
  · intro mk hmk
    have hsb : consolidatedContent list (parseTasks prior) none =
        consolidatedHeader list ++ (sbm "null".toList ++
          (nn ++ (PH ++ (nn ++ (scm "null".toList ++ (nn ++
            (((list.items.map (taskLine (parseTasks prior))).flatten) ++
              (['\n'] ++ (ecm "null".toList ++ (nn ++ (PH ++ (nn ++
                (ebm "null".toList ++ ['\n']))))))))))))) := by
      simp [consolidatedContent, List.append_assoc]
    have hsc : consolidatedContent list (parseTasks prior) none =
        (consolidatedHeader list ++ sbm "null".toList ++ nn ++ PH ++ nn) ++
          (scm "null".toList ++ (nn ++
            (((list.items.map (taskLine (parseTasks prior))).flatten) ++
              (['\n'] ++ (ecm "null".toList ++ (nn ++ (PH ++ (nn ++
                (ebm "null".toList ++ ['\n'])))))))))  := by
      simp [consolidatedContent, List.append_assoc]
    have hec : consolidatedContent list (parseTasks prior) none =
        (consolidatedHeader list ++ sbm "null".toList ++ nn ++ PH ++ nn ++
            scm "null".toList ++ nn ++
            ((list.items.map (taskLine (parseTasks prior))).flatten) ++ ['\n']) ++
          (ecm "null".toList ++ (nn ++ (PH ++ (nn ++
            (ebm "null".toList ++ ['\n']))))) := by
      simp [consolidatedContent, List.append_assoc]
    have heb : consolidatedContent list (parseTasks prior) none =
        (consolidatedHeader list ++ sbm "null".toList ++ nn ++ PH ++ nn ++
            scm "null".toList ++ nn ++
            ((list.items.map (taskLine (parseTasks prior))).flatten) ++ ['\n'] ++
            ecm "null".toList ++ nn ++ PH ++ nn) ++
          (ebm "null".toList ++ ['\n']) := by
      simp [consolidatedContent, List.append_assoc]
    simp only [List.mem_cons, List.not_mem_nil, or_false] at hmk
    rcases hmk with rfl | rfl | rfl | rfl
    · exact strIncludes_of_eq _ _ _ _ hsb
    · exact strIncludes_of_eq _ _ _ _ hsc
    · exact strIncludes_of_eq _ _ _ _ hec
    · exact strIncludes_of_eq _ _ _ _ heb

/-- Witness for C10: a concrete prior consolidated note with no marker. -/
theorem claim_C10_witness :
    createConsolidatedContent ⟨"o".toList, true, false, [], false, 105⟩
      ⟨[], "L".toList, "Tasks".toList, "c".toList, "u".toList, []⟩
      (some "no markers here".toList) "abcd".toList =
      some (consolidatedContent
        ⟨[], "L".toList, "Tasks".toList, "c".toList, "u".toList, []⟩
        (parseTasks "no markers here".toList) none) ∧
      (∀ mk ∈ [sbm "null".toList, scm "null".toList,
               ecm "null".toList, ebm "null".toList],
        strIncludes (consolidatedContent
          ⟨[], "L".toList, "Tasks".toList, "c".toList, "u".toList, []⟩
          (parseTasks "no markers here".toList) none) mk = true) :=
  claim_C10 _ _ _ _ (by decide) (by decide) (by decide)

/-! ## Position-by-position occurrence analysis -/

theorem prefix_getElem? {p s : Str} (hp : p.isPrefixOf s = true) :
    ∀ j, j < p.length → s[j]? = p[j]? := by
  induction p generalizing s with
  | nil => intro j hj; simp at hj
  | cons a as ih =>
    intro j hj
    cases s with
    | nil => simp [List.isPrefixOf] at hp
    | cons b bs =>
      simp only [List.isPrefixOf, Bool.and_eq_true, beq_iff_eq] at hp
      obtain ⟨rfl, h2⟩ := hp
      cases j with
      | zero => simp
      | succ j => simpa using ih h2 j (by simpa using hj)

theorem isPre_of_getElem? {p s : Str} (hlen : p.length ≤ s.length)
    (h : ∀ j, j < p.length → s[j]? = p[j]?) : p.isPrefixOf s = true := by
  induction p generalizing s with
  | nil => simp [List.isPrefixOf]
  | cons a as ih =>
    cases s with
    | nil => simp at hlen
    | cons b bs =>
      have h0 := h 0 (by simp)
      simp only [List.getElem?_cons_zero, Option.some.injEq] at h0
      subst h0
      simp only [List.isPrefixOf, Bool.and_eq_true, beq_self_eq_true, true_and]
      exact ih (by simpa using hlen) fun j hj => by
        simpa using h (j + 1) (by simpa using Nat.succ_lt_succ hj)

theorem not_pre_mismatch {p s : Str} {x y : Char} (j : Nat)
    (hj : p[j]? = some x) (hs : s[j]? = some y) (hxy : x ≠ y) :
    p.isPrefixOf s = false := by
  by_contra h
  rw [Bool.not_eq_false] at h
  have hjlen : j < p.length := by
    by_contra hge
    rw [List.getElem?_eq_none (by omega)] at hj
    cases hj
  have heq := prefix_getElem? h j hjlen
  rw [hj, hs] at heq
  exact hxy (by injection heq with h2; exact h2.symm)

theorem noHit_of_head_notin {pat a b : Str} {c : Char} {ps : Str}
    (hpat : pat = c :: ps) (h : ∀ x ∈ a, x ≠ c) : NoHit pat a b := by
  intro i hi
  subst hpat
  have h0 : ((a ++ b).drop i)[0]? = some a[i] := by
    rw [List.getElem?_drop, List.getElem?_append]
    rw [if_pos (by omega)]
    exact List.getElem?_eq_getElem (by omega)
  exact not_pre_mismatch 0 (by simp) h0 fun heq => h _ (a.getElem_mem _) heq.symm

theorem strIndexOf?_skip {pat : Str} : ∀ {a b : Str}, NoHit pat a b →
    strIndexOf? (a ++ b) pat = (strIndexOf? b pat).map (· + a.length) := by
  intro a
  induction a with
  | nil =>
    intro b _
    rw [List.nil_append]
    cases h : strIndexOf? b pat <;> simp [h]
  | cons c cs ih =>
    intro b h
    have h0 : pat.isPrefixOf (c :: (cs ++ b)) = false := by
      have := h 0 (by simp)
      simpa using this
    rw [List.cons_append, strIndexOf?_neg h0]
    have hrest : NoHit pat cs b := by
      intro i hi
      have := h (i + 1) (by simp; omega)
      simpa [List.cons_append] using this
    rw [ih hrest]
    cases strIndexOf? b pat <;> simp
    all_goals omega

theorem strIndexOf?_found {pat a b : Str} (h : NoHit pat a b)
    (h2 : pat.isPrefixOf b = true) :
    strIndexOf? (a ++ b) pat = some a.length := by
  rw [strIndexOf?_skip h, strIndexOf?_pos h2]
  simp

/-! ## Junction lemmas: no marker occurrence across a zone boundary -/

theorem junction_block {C A E : Str} (hC : ∀ x ∈ C, x ≠ '%')
    (hCA : C.isPrefixOf A = false) :
    (C ++ ['%', '%']).isPrefixOf (A ++ '%' :: '%' :: E) = false := by
  by_contra hcon
  rw [Bool.not_eq_false] at hcon
  rcases le_or_lt C.length A.length with hlen | hlen
  · have : C.isPrefixOf A = true := by
      refine isPre_of_getElem? hlen fun j hj => ?_
      have heq := prefix_getElem? hcon j (by simp; omega)
      have hA2 : (A ++ '%' :: '%' :: E)[j]? = A[j]? := by
        rw [List.getElem?_append]
        rw [if_pos (by omega)]
      have hC2 : (C ++ ['%', '%'])[j]? = C[j]? := by
        rw [List.getElem?_append]
        rw [if_pos (by omega)]
      rw [hA2, hC2] at heq
      exact heq
    rw [this] at hCA
    cases hCA
  · have hp : (C ++ ['%', '%'])[A.length]? = some C[A.length] := by
      rw [List.getElem?_append]
      rw [if_pos (by omega)]
      exact List.getElem?_eq_getElem (by omega)
    have hs : (A ++ '%' :: '%' :: E)[A.length]? = some '%' := by
      rw [List.getElem?_append]
      rw [if_neg (by omega)]
      simp
    have := prefix_getElem? hcon A.length (by simp; omega)
    rw [hp, hs] at this
    exact hC _ (C.getElem_mem _) (by injection this with h2; exact h2.symm)

theorem junction_one {c : Char} {Z A E : Str} (hc : c ≠ '%')
    (hA : ∀ x ∈ A, x ≠ '%') :
    ('%' :: '%' :: c :: Z).isPrefixOf ('%' :: (A ++ '%' :: '%' :: E)) = false := by
  cases A with
  | nil => exact not_pre_mismatch (x := c) (y := '%') 2 (by simp) (by simp) hc
  | cons a A' =>
    exact not_pre_mismatch (x := '%') (y := a) 1 (by simp) (by simp)
      fun h => hA a (by simp) h.symm

theorem head2_ne {c d : Char} {Z W : Str} (h : c ≠ d) :
    ('%' :: '%' :: c :: Z).isPrefixOf ('%' :: '%' :: d :: W) = false :=
  not_pre_mismatch (x := c) (y := d) 2 (by simp) (by simp) h

theorem head1_ne {Z W : Str} {d : Char} (hd : d ≠ '%') :
    ('%' :: '%' :: Z).isPrefixOf ('%' :: d :: W) = false :=
  not_pre_mismatch (x := '%') (y := d) 1 (by simp) (by simp) fun h => hd h.symm

theorem noHit_marked {core pat B : Str}
    (hcore : ∀ x ∈ core, x ≠ '%') (hcne : core ≠ [])
    (hp0 : pat[0]? = some '%') (hp1 : pat[1]? = some '%')
    (h0 : pat.isPrefixOf (marked core ++ B) = false)
    (h2 : pat.isPrefixOf ('%' :: '%' :: B) = false)
    (h3 : pat.isPrefixOf ('%' :: B) = false) :
    NoHit pat (marked core) B := by
  intro i hi
  have hmlen : (marked core).length = core.length + 4 := by
    simp [marked]
  have hdoc : marked core ++ B = '%' :: '%' :: (core ++ '%' :: '%' :: B) := by
    simp [marked]
  rw [hmlen] at hi
  rw [hdoc]
  rcases Nat.lt_or_ge i 2 with hi2 | hi2
  · have : i = 0 ∨ i = 1 := by omega
    rcases this with rfl | rfl
    · rw [← hdoc]
      exact h0
    · obtain ⟨c0, core', rfl⟩ : ∃ c0 core', core = c0 :: core' := by
        cases core with
        | nil => exact absurd rfl hcne
        | cons c0 core' => exact ⟨c0, core', rfl⟩
      refine not_pre_mismatch (y := c0) 1 hp1 ?_ fun heq => hcore c0 (by simp) heq.symm
      simp
  · rcases Nat.lt_or_ge i (2 + core.length) with himid | hiend
    · obtain ⟨j, rfl⟩ : ∃ j, i = j + 2 := ⟨i - 2, by omega⟩
      refine not_pre_mismatch (y := core[j]) 0 hp0 ?_
        fun heq => hcore core[j] (core.getElem_mem _) heq.symm
      rw [List.getElem?_drop]
      simp only [Nat.add_zero, List.getElem?_cons_succ]
      rw [List.getElem?_append]
      rw [if_pos (by omega)]
      exact List.getElem?_eq_getElem (by omega)
    · have : i = 2 + core.length ∨ i = 3 + core.length := by omega
      rcases this with rfl | rfl
      · have hdrop : ('%' :: '%' :: (core ++ '%' :: '%' :: B)).drop (2 + core.length) =
            '%' :: '%' :: B := by
          have : 2 + core.length = core.length + 1 + 1 := by omega
          rw [this]
          simp only [List.drop_succ_cons]
          exact List.drop_left core _
        rw [hdrop]
        exact h2
      · have hdrop : ('%' :: '%' :: (core ++ '%' :: '%' :: B)).drop (3 + core.length) =
            '%' :: B := by
          have h31 : 3 + core.length = core.length + 1 + 1 + 1 := by omega
          rw [h31]
          simp only [List.drop_succ_cons]
          rw [List.drop_append 1]
          rfl
        rw [hdrop]
        exact h3

/-! ## Token and marker facts -/

theorem tokenOk_spec {t : Str} (h : tokenOk t = true) :
    t ≠ [] ∧ ∀ x ∈ t, x ∈ hexTokChars := by
  unfold tokenOk at h
  rw [Bool.and_eq_true] at h
  obtain ⟨h1, h2⟩ := h
  refine ⟨fun heq => by subst heq; simp at h1, fun x hx => ?_⟩
  rw [List.all_eq_true] at h2
  have := h2 x hx
  rw [isHexTok] at this
  simpa using this

theorem hex_ne {c : Char} (h : c ∈ hexTokChars) :
    c ≠ '%' ∧ c ≠ 'E' ∧ c ≠ '\n' := by
  have hall : ∀ x ∈ hexTokChars, x ≠ '%' ∧ x ≠ 'E' ∧ x ≠ '\n' := by decide
  exact hall c h

theorem sbm_cons (t : Str) :
    sbm t = '%' :: '%' :: 'S' :: ("TART-".toList ++ t ++ ['%', '%']) := rfl

theorem scm_cons (t : Str) :
    scm t = '%' :: '%' :: 'S' :: ("TART-EXTRACTED-CONTENT-".toList ++ t ++ ['%', '%']) := rfl

theorem ecm_cons (t : Str) :
    ecm t = '%' :: '%' :: 'E' :: ("ND-EXTRACTED-CONTENT-".toList ++ t ++ ['%', '%']) := rfl

theorem ebm_cons (t : Str) :
    ebm t = '%' :: '%' :: 'E' :: ("ND-".toList ++ t ++ ['%', '%']) := rfl

/-! ## Zones are opaque to the marker search -/

theorem getElem?_lt_of_some {l : Str} {i : Nat} {c : Char} (h : l[i]? = some c) :
    i < l.length := by
  by_contra hge
  rw [List.getElem?_eq_none (by omega)] at h
  cases h

theorem zone_noHit {c3 : Char} {ps Z pat : Str}
    (hpat : pat = '%' :: '%' :: c3 :: ps) (hZ : zoneSafeChk c3 Z = true) :
    ∀ R, NoHit pat Z R := by
  intro R i hi
  subst hpat
  rw [zoneSafeChk, List.all_eq_true] at hZ
  have hchk := hZ i (List.mem_range.mpr hi)
  by_contra hcon
  rw [Bool.not_eq_false] at hcon
  have g0 := prefix_getElem? hcon 0 (by simp)
  rw [List.getElem?_drop] at g0
  have gZ0 : (Z ++ R)[i + 0]? = Z[i]? := by
    rw [Nat.add_zero, List.getElem?_append]
    rw [if_pos hi]
  rw [gZ0] at g0
  simp only [List.getElem?_cons_zero] at g0
  rw [g0] at hchk
  simp only [beq_self_eq_true, Bool.not_true, Bool.false_or] at hchk
  cases h1 : Z[i + 1]? with
  | none => rw [h1] at hchk; simp at hchk
  | some d =>
    rw [h1] at hchk
    by_cases hd : d = '%'
    · subst hd
      simp only [beq_self_eq_true, Bool.not_true, Bool.false_or] at hchk
      cases h2 : Z[i + 2]? with
      | none => rw [h2] at hchk; simp at hchk
      | some e =>
        rw [h2] at hchk
        simp only [Bool.and_eq_true, Bool.not_eq_eq_eq_not, Bool.not_true,
          beq_eq_false_iff_ne] at hchk
        have g2 := prefix_getElem? hcon 2 (by simp)
        rw [List.getElem?_drop] at g2
        have gZ2 : (Z ++ R)[i + 2]? = Z[i + 2]? := by
          rw [List.getElem?_append]
          rw [if_pos (getElem?_lt_of_some h2)]
        rw [gZ2, h2] at g2
        simp only [List.getElem?_cons_succ, List.getElem?_cons_zero] at g2
        exact hchk.2 (by simpa using g2)
    · have g1 := prefix_getElem? hcon 1 (by simp)
      rw [List.getElem?_drop] at g1
      have gZ1 : (Z ++ R)[i + 1]? = Z[i + 1]? := by
        rw [List.getElem?_append]
        rw [if_pos (getElem?_lt_of_some h1)]
      rw [gZ1, h1] at g1
      simp only [List.getElem?_cons_succ, List.getElem?_cons_zero] at g1
      exact hd (by simpa using g1)

theorem isPre_trans {a b c : Str} (h1 : a.isPrefixOf b = true)
    (h2 : b.isPrefixOf c = true) : a.isPrefixOf c = true := by
  rw [List.isPrefixOf_iff_prefix] at h1 h2 ⊢
  exact h1.trans h2

theorem isPre_cons2 {a b : Char} {X Y : Str} :
    (a :: b :: X).isPrefixOf (a :: b :: Y) = X.isPrefixOf Y := by
  simp [List.isPrefixOf]

theorem core_scm_pfree {t : Str} (ht : tokenOk t = true) :
    ∀ x ∈ "START-EXTRACTED-CONTENT-".toList ++ t, x ≠ '%' := by
  intro x hx
  rcases List.mem_append.mp hx with hx | hx
  · have hcc : ∀ y ∈ "START-EXTRACTED-CONTENT-".toList, y ≠ '%' := by decide
    exact hcc x hx
  · exact (hex_ne ((tokenOk_spec ht).2 x hx)).1

theorem core_ecm_pfree {t : Str} (ht : tokenOk t = true) :
    ∀ x ∈ "END-EXTRACTED-CONTENT-".toList ++ t, x ≠ '%' := by
  intro x hx
  rcases List.mem_append.mp hx with hx | hx
  · have hcc : ∀ y ∈ "END-EXTRACTED-CONTENT-".toList, y ≠ '%' := by decide
    exact hcc x hx
  · exact (hex_ne ((tokenOk_spec ht).2 x hx)).1

theorem core_ebm_pfree {t : Str} (ht : tokenOk t = true) :
    ∀ x ∈ "END-".toList ++ t, x ≠ '%' := by
  intro x hx
  rcases List.mem_append.mp hx with hx | hx
  · have hcc : ∀ y ∈ "END-".toList, y ≠ '%' := by decide
    exact hcc x hx
  · exact (hex_ne ((tokenOk_spec ht).2 x hx)).1

theorem core_sbm_pfree {t : Str} (ht : tokenOk t = true) :
    ∀ x ∈ "START-".toList ++ t, x ≠ '%' := by
  intro x hx
  rcases List.mem_append.mp hx with hx | hx
  · have hcc : ∀ y ∈ "START-".toList, y ≠ '%' := by decide
    exact hcc x hx
  · exact (hex_ne ((tokenOk_spec ht).2 x hx)).1

/-- A percent-free zone that does not begin with `START-` or `END-`
satisfies every zone obligation. -/
theorem zoneOK_of_pfree {t Z : Str} (ht : tokenOk t = true)
    (hZ : ∀ x ∈ Z, x ≠ '%')
    (hS : ("START-".toList).isPrefixOf Z = false)
    (hE : ("END-".toList).isPrefixOf Z = false) : ZoneOK t Z := by
  have hCAsc : ("START-EXTRACTED-CONTENT-".toList ++ t).isPrefixOf Z = false := by
    by_contra hcon
    rw [Bool.not_eq_false] at hcon
    rw [isPre_trans (a := "START-".toList) (b := "START-EXTRACTED-CONTENT-".toList ++ t) rfl hcon] at hS
    cases hS
  have hCAec : ("END-EXTRACTED-CONTENT-".toList ++ t).isPrefixOf Z = false := by
    by_contra hcon
    rw [Bool.not_eq_false] at hcon
    rw [isPre_trans (a := "END-".toList) (b := "END-EXTRACTED-CONTENT-".toList ++ t) rfl hcon] at hE
    cases hE
  have hCAeb : ("END-".toList ++ t).isPrefixOf Z = false := by
    by_contra hcon
    rw [Bool.not_eq_false] at hcon
    rw [isPre_trans (a := "END-".toList) (b := "END-".toList ++ t) (isPrefixOf_append_self _ _) hcon] at hE
    cases hE
  refine ⟨?_, ?_, ?_⟩
  · intro p hp R
    simp only [List.mem_cons, List.not_mem_nil, or_false] at hp
    rcases hp with rfl | rfl | rfl
    · exact noHit_of_head_notin (scm_cons t) hZ
    · exact noHit_of_head_notin (ecm_cons t) hZ
    · exact noHit_of_head_notin (ebm_cons t) hZ
  · intro p hp E
    simp only [List.mem_cons, List.not_mem_nil, or_false] at hp
    rcases hp with rfl | rfl | rfl
    · show (marked ("START-EXTRACTED-CONTENT-".toList ++ t)).isPrefixOf _ = false
      rw [show marked ("START-EXTRACTED-CONTENT-".toList ++ t) =
        '%' :: '%' :: (("START-EXTRACTED-CONTENT-".toList ++ t) ++ ['%', '%']) from rfl]
      rw [isPre_cons2]
      exact junction_block (core_scm_pfree ht) hCAsc
    · show (marked ("END-EXTRACTED-CONTENT-".toList ++ t)).isPrefixOf _ = false
      rw [show marked ("END-EXTRACTED-CONTENT-".toList ++ t) =
        '%' :: '%' :: (("END-EXTRACTED-CONTENT-".toList ++ t) ++ ['%', '%']) from rfl]
      rw [isPre_cons2]
      exact junction_block (core_ecm_pfree ht) hCAec
    · show (marked ("END-".toList ++ t)).isPrefixOf _ = false
      rw [show marked ("END-".toList ++ t) =
        '%' :: '%' :: (("END-".toList ++ t) ++ ['%', '%']) from rfl]
      rw [isPre_cons2]
      exact junction_block (core_ebm_pfree ht) hCAeb
  · intro p hp E
    simp only [List.mem_cons, List.not_mem_nil, or_false] at hp
    rcases hp with rfl | rfl | rfl
    · rw [scm_cons]
      exact junction_one (by decide) hZ
    · rw [ecm_cons]
      exact junction_one (by decide) hZ
    · rw [ebm_cons]
      exact junction_one (by decide) hZ

/-- The fresh-placeholder zone `\n\n PH \n\n` satisfies every zone
obligation. -/
theorem zoneOK_ph (t : Str) : ZoneOK t (nn ++ PH ++ nn) := by
  have hsafeS : zoneSafeChk 'S' (nn ++ PH ++ nn) = true := by decide
  have hsafeE : zoneSafeChk 'E' (nn ++ PH ++ nn) = true := by decide
  have hshape : nn ++ PH ++ nn = '\n' :: '\n' :: (PH ++ nn) := rfl
  refine ⟨?_, ?_, ?_⟩
  · intro p hp R
    simp only [List.mem_cons, List.not_mem_nil, or_false] at hp
    rcases hp with rfl | rfl | rfl
    · exact zone_noHit (scm_cons t) hsafeS R
    · exact zone_noHit (ecm_cons t) hsafeE R
    · exact zone_noHit (ebm_cons t) hsafeE R
  · intro p hp E
    simp only [List.mem_cons, List.not_mem_nil, or_false] at hp
    have hsh2 : (nn ++ PH ++ nn) ++ '%' :: '%' :: E =
        '\n' :: '\n' :: ((PH ++ nn) ++ '%' :: '%' :: E) := rfl
    rcases hp with rfl | rfl | rfl
    · rw [scm_cons, hsh2]
      exact head2_ne (by decide)
    · rw [ecm_cons, hsh2]
      exact head2_ne (by decide)
    · rw [ebm_cons, hsh2]
      exact head2_ne (by decide)
  · intro p hp E
    simp only [List.mem_cons, List.not_mem_nil, or_false] at hp
    have hsh2 : (nn ++ PH ++ nn) ++ '%' :: '%' :: E =
        '\n' :: '\n' :: ((PH ++ nn) ++ '%' :: '%' :: E) := rfl
    rcases hp with rfl | rfl | rfl
    · rw [scm_cons, hsh2]
      exact head1_ne (by decide)
    · rw [ecm_cons, hsh2]
      exact head1_ne (by decide)
    · rw [ebm_cons, hsh2]
      exact head1_ne (by decide)

/-! ## No marker occurrence starts inside another marker segment -/

theorem nn_pfree : ∀ x ∈ nn, x ≠ '%' := by decide

theorem noHit_sbm {t A : Str} {p : Str} (ht : tokenOk t = true) (hZA : ZoneOK t A)
    (hp : p ∈ [scm t, ecm t, ebm t]) (X : Str) :
    NoHit p (sbm t) (A ++ (scm t ++ X)) := by
  obtain ⟨c0, t', rfl⟩ : ∃ c0 t', t = c0 :: t' := by
    obtain ⟨hne, _⟩ := tokenOk_spec ht
    cases t with
    | nil => exact absurd rfl hne
    | cons c0 t' => exact ⟨c0, t', rfl⟩
  have hc0 : c0 ∈ hexTokChars := (tokenOk_spec ht).2 c0 (by simp)
  have hsbm : sbm (c0 :: t') = marked ("START-".toList ++ (c0 :: t')) := rfl
  rw [hsbm]
  refine noHit_marked (core_sbm_pfree ht) (by simp) ?_ ?_ ?_ ?_ ?_
  · simp only [List.mem_cons, List.not_mem_nil, or_false] at hp
    rcases hp with rfl | rfl | rfl <;> rfl
  · simp only [List.mem_cons, List.not_mem_nil, or_false] at hp
    rcases hp with rfl | rfl | rfl <;> rfl
  · simp only [List.mem_cons, List.not_mem_nil, or_false] at hp
    rcases hp with rfl | rfl | rfl
    · refine not_pre_mismatch (x := 'E') (y := c0) 8 (by rfl) ?_
        (Ne.symm (hex_ne hc0).2.1)
      show ('%' :: '%' :: (("START-".toList ++ c0 :: t') ++ ['%', '%']) ++
        (A ++ (scm (c0 :: t') ++ X)))[8]? = some c0
      simp
    · exact not_pre_mismatch (x := 'E') (y := 'S') 2 (by rfl) (by rfl) (by decide)
    · exact not_pre_mismatch (x := 'E') (y := 'S') 2 (by rfl) (by rfl) (by decide)
  · exact hZA.2.1 p hp _
  · exact hZA.2.2 p hp _

theorem noHit_scm {t : Str} {p : Str} (ht : tokenOk t = true)
    (hp : p ∈ [ecm t, ebm t]) (X : Str) :
    NoHit p (scm t) (nn ++ X) := by
  have hscm : scm t = marked ("START-EXTRACTED-CONTENT-".toList ++ t) := rfl
  rw [hscm]
  refine noHit_marked (core_scm_pfree ht) (by simp) ?_ ?_ ?_ ?_ ?_
  · simp only [List.mem_cons, List.not_mem_nil, or_false] at hp
    rcases hp with rfl | rfl <;> rfl
  · simp only [List.mem_cons, List.not_mem_nil, or_false] at hp
    rcases hp with rfl | rfl <;> rfl
  · simp only [List.mem_cons, List.not_mem_nil, or_false] at hp
    rcases hp with rfl | rfl
    · exact not_pre_mismatch (x := 'E') (y := 'S') 2 (by rfl) (by rfl) (by decide)
    · exact not_pre_mismatch (x := 'E') (y := 'S') 2 (by rfl) (by rfl) (by decide)
  · simp only [List.mem_cons, List.not_mem_nil, or_false] at hp
    rcases hp with rfl | rfl
    · rw [ecm_cons]
      exact head2_ne (by decide)
    · rw [ebm_cons]
      exact head2_ne (by decide)
  · simp only [List.mem_cons, List.not_mem_nil, or_false] at hp
    rcases hp with rfl | rfl
    · rw [ecm_cons]
      exact head1_ne (by decide)
    · rw [ebm_cons]
      exact head1_ne (by decide)

theorem noHit_ecm {t B : Str} (ht : tokenOk t = true) (hZB : ZoneOK t B) (X : Str) :
    NoHit (ebm t) (ecm t) (B ++ (ebm t ++ X)) := by
  obtain ⟨c0, t', rfl⟩ : ∃ c0 t', t = c0 :: t' := by
    obtain ⟨hne, _⟩ := tokenOk_spec ht
    cases t with
    | nil => exact absurd rfl hne
    | cons c0 t' => exact ⟨c0, t', rfl⟩
  have hc0 : c0 ∈ hexTokChars := (tokenOk_spec ht).2 c0 (by simp)
  have hecm : ecm (c0 :: t') = marked ("END-EXTRACTED-CONTENT-".toList ++ (c0 :: t')) := rfl
  rw [hecm]
  refine noHit_marked (core_ecm_pfree ht) (by simp) (by rfl) (by rfl) ?_ ?_ ?_
  · refine not_pre_mismatch (x := c0) (y := 'E') 6 ?_ (by rfl) (hex_ne hc0).2.1
    rw [ebm_cons]
    simp
  · exact hZB.2.1 _ (by simp) _
  · exact hZB.2.2 _ (by simp) _

/-! ## The positions of the four markers in a canonical document -/

theorem spliceDoc_assoc (fm0 t A body0 B tail : Str) :
    spliceDoc fm0 t A body0 B tail =
      fm0 ++ (sbm t ++ (A ++ (scm t ++ (nn ++ (body0 ++ (nn ++
        (ecm t ++ (B ++ (ebm t ++ tail))))))))) := by
  simp [spliceDoc, List.append_assoc]

theorem idx_sbm {fm0 t A body0 B tail : Str}
    (hfm : ∀ x ∈ fm0, x ≠ '%') :
    strIndexOf? (spliceDoc fm0 t A body0 B tail) (sbm t) = some fm0.length := by
  rw [spliceDoc_assoc]
  exact strIndexOf?_found (noHit_of_head_notin (sbm_cons t) hfm)
    (isPrefixOf_append_self _ _)

theorem idx_scm {fm0 t A body0 B tail : Str} (ht : tokenOk t = true)
    (hfm : ∀ x ∈ fm0, x ≠ '%') (hZA : ZoneOK t A) :
    strIndexOf? (spliceDoc fm0 t A body0 B tail) (scm t) =
      some (fm0.length + (sbm t).length + A.length) := by
  rw [spliceDoc_assoc]
  rw [strIndexOf?_skip (noHit_of_head_notin (scm_cons t) hfm)]
  rw [strIndexOf?_skip (noHit_sbm ht hZA (by simp) _)]
  rw [strIndexOf?_found (hZA.1 _ (by simp) _) (isPrefixOf_append_self _ _)]
  simp only [Option.map_some', Option.some.injEq]
  omega

theorem idx_ecm {fm0 t A body0 B tail : Str} (ht : tokenOk t = true)
    (hfm : ∀ x ∈ fm0, x ≠ '%') (hbody : ∀ x ∈ body0, x ≠ '%')
    (hZA : ZoneOK t A) :
    strIndexOf? (spliceDoc fm0 t A body0 B tail) (ecm t) =
      some (fm0.length + (sbm t).length + A.length + (scm t).length + 2 +
        body0.length + 2) := by
  rw [spliceDoc_assoc]
  rw [strIndexOf?_skip (noHit_of_head_notin (ecm_cons t) hfm)]
  rw [strIndexOf?_skip (noHit_sbm ht hZA (by simp) _)]
  rw [strIndexOf?_skip (hZA.1 _ (by simp) _)]
  rw [strIndexOf?_skip (noHit_scm ht (by simp) _)]
  rw [strIndexOf?_skip (noHit_of_head_notin (ecm_cons t) nn_pfree)]
  rw [strIndexOf?_skip (noHit_of_head_notin (ecm_cons t) hbody)]
  rw [strIndexOf?_found (noHit_of_head_notin (ecm_cons t) nn_pfree)
    (isPrefixOf_append_self _ _)]
  simp only [Option.map_some', Option.some.injEq]
  simp only [nn]
  simp
  omega

theorem idx_ebm {fm0 t A body0 B tail : Str} (ht : tokenOk t = true)
    (hfm : ∀ x ∈ fm0, x ≠ '%') (hbody : ∀ x ∈ body0, x ≠ '%')
    (hZA : ZoneOK t A) (hZB : ZoneOK t B) :
    strIndexOf? (spliceDoc fm0 t A body0 B tail) (ebm t) =
      some (fm0.length + (sbm t).length + A.length + (scm t).length + 2 +
        body0.length + 2 + (ecm t).length + B.length) := by
  rw [spliceDoc_assoc]
  rw [strIndexOf?_skip (noHit_of_head_notin (ebm_cons t) hfm)]
  rw [strIndexOf?_skip (noHit_sbm ht hZA (by simp) _)]
  rw [strIndexOf?_skip (hZA.1 _ (by simp) _)]
  rw [strIndexOf?_skip (noHit_scm ht (by simp) _)]
  rw [strIndexOf?_skip (noHit_of_head_notin (ebm_cons t) nn_pfree)]
  rw [strIndexOf?_skip (noHit_of_head_notin (ebm_cons t) hbody)]
  rw [strIndexOf?_skip (noHit_of_head_notin (ebm_cons t) nn_pfree)]
  rw [strIndexOf?_skip (noHit_ecm ht hZB _)]
  rw [strIndexOf?_found (hZB.1 _ (by simp) _) (isPrefixOf_append_self _ _)]
  simp only [Option.map_some', Option.some.injEq]
  simp only [nn]
  simp
  omega

/-! ## Token extraction on a canonical document -/

theorem tryToken_cons_ne {c : Char} {s : Str} (hc : c ≠ '%') :
    tryToken (c :: s) = none := by
  unfold tryToken
  rw [if_neg]
  rw [not_pre_mismatch (x := '%') (y := c) 0 (by rfl) (by simp) (Ne.symm hc)]
  simp

theorem extractItemId_cons (c : Char) (tl : Str) :
    extractItemId (c :: tl) =
      (match tryToken (c :: tl) with
       | some tk => some tk
       | none => extractItemId tl) := rfl

theorem extractItemId_skip {a : Str} (ha : ∀ x ∈ a, x ≠ '%') :
    ∀ b, extractItemId (a ++ b) = extractItemId b := by
  induction a with
  | nil => intro b; rfl
  | cons c cs ih =>
    intro b
    rw [List.cons_append, extractItemId_cons,
      tryToken_cons_ne (ha c (by simp))]
    exact ih (fun x hx => ha x (by simp [hx])) b

theorem takeWhile_all_stop {p : Char → Bool} {t : Str} {y : Char} (l : Str)
    (ht : ∀ x ∈ t, p x = true) (hy : p y = false) :
    (t ++ y :: l).takeWhile p = t := by
  induction t with
  | nil => simp [List.takeWhile_cons, hy]
  | cons c cs ih =>
    rw [List.cons_append, List.takeWhile_cons, ht c (by simp)]
    simp only [if_true]
    rw [ih fun x hx => ht x (by simp [hx])]

theorem tryToken_sbm {t : Str} (ht : tokenOk t = true) (rest : Str) :
    tryToken (sbm t ++ rest) = some t := by
  obtain ⟨hne, hall⟩ := tokenOk_spec ht
  have hform : sbm t ++ rest = "%%START-".toList ++ (t ++ ('%' :: '%' :: rest)) := by
    simp [sbm, marked, List.append_assoc]
  unfold tryToken
  rw [if_pos (by rw [hform]; exact isPrefixOf_append_self _ _)]
  have hdrop : (sbm t ++ rest).drop 8 = t ++ ('%' :: '%' :: rest) := by
    rw [hform]
    rw [show (8 : Nat) = ("%%START-".toList).length from rfl]
    exact List.drop_left _ _
  rw [hdrop]
  show (match shrinkRun (t ++ '%' :: '%' :: rest)
      ((t ++ '%' :: '%' :: rest).takeWhile isHexTok).length with
    | some k => some ((t ++ '%' :: '%' :: rest).take k)
    | none => none) = some t
  rw [takeWhile_all_stop ('%' :: rest)
    (fun x hx => by rw [isHexTok]; simp [hall x hx]) (by decide)]
  obtain ⟨c0, t', rfl⟩ : ∃ c0 t', t = c0 :: t' := by
    cases t with
    | nil => exact absurd rfl hne
    | cons c0 t' => exact ⟨c0, t', rfl⟩
  have hlen : (c0 :: t').length = t'.length + 1 := rfl
  rw [hlen]
  unfold shrinkRun
  rw [if_pos]
  · simp only
    rw [← hlen, List.take_left]
  · rw [← hlen, List.drop_left]
    simp [List.isPrefixOf]

theorem extractItemId_sbm {t : Str} (ht : tokenOk t = true) (rest : Str) :
    extractItemId (sbm t ++ rest) = some t := by
  have hform : sbm t ++ rest =
      '%' :: (('%' :: 'S' :: ("TART-".toList ++ t ++ ['%', '%'])) ++ rest) := rfl
  rw [hform, extractItemId_cons, ← hform, tryToken_sbm ht]

/-! ## Extraction of the user-comment zones -/

theorem jsSubstring_extract (X Y Z : Str) :
    jsSubstring (X ++ (Y ++ Z)) X.length (X.length + Y.length) = Y := by
  show ((X ++ (Y ++ Z)).take
      (max (min X.length (X ++ (Y ++ Z)).length)
        (min (X.length + Y.length) (X ++ (Y ++ Z)).length))).drop
      (min (min X.length (X ++ (Y ++ Z)).length)
        (min (X.length + Y.length) (X ++ (Y ++ Z)).length)) = Y
  have h1 : min X.length (X ++ (Y ++ Z)).length = X.length :=
    min_eq_left (by simp)
  have h2 : min (X.length + Y.length) (X ++ (Y ++ Z)).length =
      X.length + Y.length := min_eq_left (by simp)
  rw [h1, h2, max_eq_right (by omega), min_eq_left (by omega)]
  rw [show X ++ (Y ++ Z) = (X ++ Y) ++ Z by simp [List.append_assoc]]
  rw [show X.length + Y.length = (X ++ Y).length by simp]
  rw [List.take_left]
  exact List.drop_left _ _

/-! ## The master splice theorem -/

theorem update_splice (cfg : Settings) (tpl : Str) (item : ListyItem)
    (list : ListyList) (t fm0 A body0 B tail fresh : Str)
    (ht : tokenOk t = true)
    (hfm : ∀ x ∈ fm0, x ≠ '%') (hbody : ∀ x ∈ body0, x ≠ '%')
    (hZA : ZoneOK t A) (hZB : ZoneOK t B) :
    updateExistingNote cfg tpl item list (spliceDoc fm0 t A body0 B tail) t fresh =
      generateFrontmatter cfg item list ++ sbm t ++ A ++ scm t ++ nn ++
        generateItemContent cfg tpl item list ++ nn ++ ecm t ++ B ++ ebm t ++ ['\n'] := by
  have hsb := @idx_sbm fm0 t A body0 B tail hfm
  have hsc := @idx_scm fm0 t A body0 B tail ht hfm hZA
  have hec := @idx_ecm fm0 t A body0 B tail ht hfm hbody hZA
  have heb := @idx_ebm fm0 t A body0 B tail ht hfm hbody hZA hZB
  have hin1 : strIncludes (spliceDoc fm0 t A body0 B tail) (sbm t) = true := by
    rw [strIncludes, hsb]
    rfl
  have hin2 : strIncludes (spliceDoc fm0 t A body0 B tail) (ebm t) = true := by
    rw [strIncludes, heb]
    rfl
  have hin3 : strIncludes (spliceDoc fm0 t A body0 B tail) (scm t) = true := by
    rw [strIncludes, hsc]
    rfl
  have hin4 : strIncludes (spliceDoc fm0 t A body0 B tail) (ecm t) = true := by
    rw [strIncludes, hec]
    rfl
  have hbc : jsSubstring (spliceDoc fm0 t A body0 B tail)
      (fm0.length + (sbm t).length)
      (fm0.length + (sbm t).length + A.length) = A := by
    have base := jsSubstring_extract (fm0 ++ sbm t) A
      (scm t ++ (nn ++ (body0 ++ (nn ++ (ecm t ++ (B ++ (ebm t ++ tail)))))))
    rw [show (fm0 ++ sbm t) ++
        (A ++ (scm t ++ (nn ++ (body0 ++ (nn ++ (ecm t ++ (B ++ (ebm t ++ tail)))))))) =
        spliceDoc fm0 t A body0 B tail by simp [spliceDoc, List.append_assoc]] at base
    rw [show (fm0 ++ sbm t).length = fm0.length + (sbm t).length by simp] at base
    exact base
  have hac : jsSubstring (spliceDoc fm0 t A body0 B tail)
      (fm0.length + (sbm t).length + A.length + (scm t).length + 2 +
        body0.length + 2 + (ecm t).length)
      (fm0.length + (sbm t).length + A.length + (scm t).length + 2 +
        body0.length + 2 + (ecm t).length + B.length + (ebm t).length -
        (ebm t).length) = B := by
    have base := jsSubstring_extract
      (fm0 ++ (sbm t ++ (A ++ (scm t ++ (nn ++ (body0 ++ (nn ++ ecm t)))))))
      B (ebm t ++ tail)
    rw [show (fm0 ++ (sbm t ++ (A ++ (scm t ++ (nn ++ (body0 ++ (nn ++ ecm t))))))) ++
        (B ++ (ebm t ++ tail)) = spliceDoc fm0 t A body0 B tail by
      simp [spliceDoc, List.append_assoc]] at base
    rw [show (fm0 ++ (sbm t ++ (A ++ (scm t ++ (nn ++ (body0 ++ (nn ++ ecm t))))))).length =
        fm0.length + (sbm t).length + A.length + (scm t).length + 2 +
          body0.length + 2 + (ecm t).length by
      simp only [List.length_append, nn, List.length_cons, List.length_nil]
      omega] at base
    rw [show fm0.length + (sbm t).length + A.length + (scm t).length + 2 +
        body0.length + 2 + (ecm t).length + B.length + (ebm t).length -
        (ebm t).length =
        fm0.length + (sbm t).length + A.length + (scm t).length + 2 +
        body0.length + 2 + (ecm t).length + B.length from by omega]
    exact base
  simp only [updateExistingNote, hin1, hin2, hin3, hin4, Bool.and_self, if_true]
  rw [hsb, heb, hsc, hec]
  dsimp only
  rw [hbc, hac]

/-! ## Inclusion monotonicity and document shape lemmas -/

theorem isPre_extend {p x : Str} (b : Str) (h : p.isPrefixOf x = true) :
    p.isPrefixOf (x ++ b) = true := by
  rw [List.isPrefixOf_iff_prefix] at h ⊢
  exact h.trans (List.prefix_append x b)

theorem strIncludes_append_right {s pat : Str} (b : Str)
    (h : strIncludes s pat = true) : strIncludes (s ++ b) pat = true := by
  induction s with
  | nil =>
    by_cases hp : pat.isPrefixOf ([] : Str) = true
    · rw [strIncludes, strIndexOf?_pos (isPre_extend b hp)]
      rfl
    · rw [strIncludes] at h
      simp [strIndexOf?, hp] at h
  | cons c tl ih =>
    by_cases hp2 : pat.isPrefixOf (c :: (tl ++ b)) = true
    · rw [List.cons_append, strIncludes, strIndexOf?_pos hp2]
      rfl
    · by_cases hp : pat.isPrefixOf (c :: tl) = true
      · exact absurd (by simpa using isPre_extend b hp) hp2
      · rw [Bool.not_eq_true] at hp hp2
        rw [strIncludes, strIndexOf?_neg hp] at h
        rw [List.cons_append, strIncludes, strIndexOf?_neg hp2]
        have htl : strIncludes tl pat = true := by
          rw [strIncludes]
          cases hopt : strIndexOf? tl pat with
          | none => rw [hopt] at h; simp at h
          | some i => rfl
        have hres := ih htl
        rw [strIncludes] at hres
        cases hopt : strIndexOf? (tl ++ b) pat with
        | none => rw [hopt] at hres; simp at hres
        | some i => rfl

theorem strIncludes_append_left {s pat : Str} (a : Str)
    (h : strIncludes s pat = true) : strIncludes (a ++ s) pat = true := by
  induction a with
  | nil => simpa using h
  | cons c cs ih =>
    by_cases hp : pat.isPrefixOf (c :: (cs ++ s)) = true
    · rw [List.cons_append, strIncludes, strIndexOf?_pos hp]
      rfl
    · rw [Bool.not_eq_true] at hp
      rw [List.cons_append, strIncludes, strIndexOf?_neg hp]
      rw [strIncludes] at ih
      cases hopt : strIndexOf? (cs ++ s) pat with
      | none => rw [hopt] at ih; simp at ih
      | some i => rfl

theorem freshNote_splice (cfg : Settings) (tpl : Str) (item : ListyItem)
    (list : ListyList) (tok : Str) :
    freshNote cfg tpl item list tok =
      spliceDoc (generateFrontmatter cfg item list) tok (nn ++ PH ++ nn)
        (generateItemContent cfg tpl item list) (nn ++ PH ++ nn) ['\n'] := by
  simp [freshNote, spliceDoc, List.append_assoc]

theorem spliceDoc_isEmpty (fm0 t A body0 B tail : Str) :
    (spliceDoc fm0 t A body0 B tail).isEmpty = false := by
  cases h : spliceDoc fm0 t A body0 B tail with
  | nil =>
    exfalso
    have hlen := congrArg List.length h
    simp [spliceDoc, sbm, marked] at hlen
  | cons c cs => rfl

theorem extractItemId_splice {fm0 t : Str} (ht : tokenOk t = true)
    (hfm : ∀ x ∈ fm0, x ≠ '%') (A body0 B tail : Str) :
    extractItemId (spliceDoc fm0 t A body0 B tail) = some t := by
  rw [spliceDoc_assoc, extractItemId_skip hfm, extractItemId_sbm ht]

/-! ## C1: idempotence of the merge -/

/-- C1 (amended): merging the same Entry and Collection twice in a row is
idempotent — the second run re-extracts the first run's token, preserves
both placeholder comment zones, and reproduces the first run's output byte
for byte — provided the regenerated header and body contain no `%`
character, so that the entry data cannot collide with the `%%…%%` markers.
Without that proviso the claim is false: see the counterexample, where a
collection title containing marker text derails the second run's token
extraction. -/
theorem claim_C1 (cfg : Settings) (tpl : Str) (item : ListyItem)
    (list : ListyList) (t1 t2 : Str) (ht : tokenOk t1 = true)
    (hfm : ∀ x ∈ generateFrontmatter cfg item list, x ≠ '%')
    (hbody : ∀ x ∈ generateItemContent cfg tpl item list, x ≠ '%') :
    generateNoteContent cfg tpl item list
        (some (generateNoteContent cfg tpl item list none t1)) t2 =
      generateNoteContent cfg tpl item list none t1 := by
  have hrun1 : generateNoteContent cfg tpl item list none t1 =
      spliceDoc (generateFrontmatter cfg item list) t1 (nn ++ PH ++ nn)
        (generateItemContent cfg tpl item list) (nn ++ PH ++ nn) ['\n'] := by
    show freshNote cfg tpl item list t1 = _
    exact freshNote_splice cfg tpl item list t1
  rw [hrun1]
  have hne := spliceDoc_isEmpty (generateFrontmatter cfg item list) t1
    (nn ++ PH ++ nn) (generateItemContent cfg tpl item list) (nn ++ PH ++ nn)
    ['\n']
  have hex := extractItemId_splice ht hfm (nn ++ PH ++ nn)
    (generateItemContent cfg tpl item list) (nn ++ PH ++ nn) ['\n']
  unfold generateNoteContent
  dsimp only
  rw [hne]
  simp only [Bool.false_eq_true, if_false, hex]
  rw [update_splice cfg tpl item list t1 (generateFrontmatter cfg item list)
    (nn ++ PH ++ nn) (generateItemContent cfg tpl item list) (nn ++ PH ++ nn)
    ['\n'] t2 ht hfm hbody (zoneOK_ph t1) (zoneOK_ph t1)]
  rfl

set_option maxRecDepth 100000 in
/-- Witness for C1: a concrete clean entry, merged twice; the second run's
fresh-token argument `beef` is never used. -/
theorem claim_C1_witness :
    generateNoteContent cfgW "B".toList itemW listW
        (some (generateNoteContent cfgW "B".toList itemW listW
          none "cafe".toList)) "beef".toList =
      generateNoteContent cfgW "B".toList itemW listW none "cafe".toList :=
  claim_C1 cfgW "B".toList itemW listW "cafe".toList "beef".toList
    (by decide) (by decide) (by decide)

set_option maxRecDepth 100000 in
/-- Counterexample to C1 as stated: with the collection title
`%%START-aa%%`, the first run's output leads the second run to extract the
bogus token `aa`, fail the marker guard, and regenerate from scratch with a
new token, so the outputs differ. -/
theorem claim_C1_cex :
    extractItemId (generateNoteContent cfgW "B".toList itemW listMk
        none "cafe".toList) = some "aa".toList ∧
    generateNoteContent cfgW "B".toList itemW listMk
        (some (generateNoteContent cfgW "B".toList itemW listMk
          none "cafe".toList)) "beef".toList ≠
      generateNoteContent cfgW "B".toList itemW listMk none "cafe".toList := by
  decide

/-! ## C2: preservation of the user-comment zones -/

/-- C2 (amended): take a document in the canonical engine-produced shape —
header and body free of `%` — whose two user-comment zones hold injected
text that is free of `%` and does not begin with `START-` or `END-` (so it
cannot be mistaken for a marker), and re-run the merge with an Entry whose
title changed.  Then (1) the output is the regenerated header and body
around the two zones, byte-for-byte unchanged, under the same token;
(2) the output still extracts that token; and (3) any text contained in the
regenerated body — the new title in particular — is contained in the
output.  With truly arbitrary injected text the claim is false: see the
counterexample, where injected marker text makes the zone arithmetic cut
the second zone away. -/
theorem claim_C2 (cfg : Settings) (tpl : Str) (item : ListyItem)
    (list : ListyList) (t fm0 A body0 B fresh nT : Str)
    (ht : tokenOk t = true)
    (hfm0 : ∀ x ∈ fm0, x ≠ '%') (hbody0 : ∀ x ∈ body0, x ≠ '%')
    (hA : ∀ x ∈ A, x ≠ '%') (hB : ∀ x ∈ B, x ≠ '%')
    (hAS : ("START-".toList).isPrefixOf A = false)
    (hAE : ("END-".toList).isPrefixOf A = false)
    (hBS : ("START-".toList).isPrefixOf B = false)
    (hBE : ("END-".toList).isPrefixOf B = false)
    (hfm : ∀ x ∈ generateFrontmatter cfg item list, x ≠ '%') :
    generateNoteContent cfg tpl item list
        (some (spliceDoc fm0 t A body0 B ['\n'])) fresh =
      generateFrontmatter cfg item list ++ sbm t ++ A ++ scm t ++ nn ++
        generateItemContent cfg tpl item list ++ nn ++ ecm t ++ B ++
        ebm t ++ ['\n'] ∧
    extractItemId (generateNoteContent cfg tpl item list
        (some (spliceDoc fm0 t A body0 B ['\n'])) fresh) = some t ∧
    (strIncludes (generateItemContent cfg tpl item list) nT = true →
      strIncludes (generateNoteContent cfg tpl item list
        (some (spliceDoc fm0 t A body0 B ['\n'])) fresh) nT = true) := by
  have hne := spliceDoc_isEmpty fm0 t A body0 B ['\n']
  have hex0 := extractItemId_splice ht hfm0 A body0 B ['\n']
  have hZA := zoneOK_of_pfree ht hA hAS hAE
  have hZB := zoneOK_of_pfree ht hB hBS hBE
  have hres : generateNoteContent cfg tpl item list
      (some (spliceDoc fm0 t A body0 B ['\n'])) fresh =
      generateFrontmatter cfg item list ++ sbm t ++ A ++ scm t ++ nn ++
        generateItemContent cfg tpl item list ++ nn ++ ecm t ++ B ++
        ebm t ++ ['\n'] := by
    unfold generateNoteContent
    dsimp only
    rw [hne]
    simp only [Bool.false_eq_true, if_false, hex0]
    exact update_splice cfg tpl item list t fm0 A body0 B ['\n'] fresh
      ht hfm0 hbody0 hZA hZB
  refine ⟨hres, ?_, ?_⟩
  · rw [hres, show generateFrontmatter cfg item list ++ sbm t ++ A ++ scm t ++
        nn ++ generateItemContent cfg tpl item list ++ nn ++ ecm t ++ B ++
        ebm t ++ ['\n'] =
        generateFrontmatter cfg item list ++ (sbm t ++ (A ++ (scm t ++ (nn ++
          (generateItemContent cfg tpl item list ++ (nn ++ (ecm t ++ (B ++
          (ebm t ++ ['\n'])))))))))
      from by simp [List.append_assoc]]
    rw [extractItemId_skip hfm, extractItemId_sbm ht]
  · intro hinc
    rw [hres, show generateFrontmatter cfg item list ++ sbm t ++ A ++ scm t ++
        nn ++ generateItemContent cfg tpl item list ++ nn ++ ecm t ++ B ++
        ebm t ++ ['\n'] =
        (generateFrontmatter cfg item list ++ sbm t ++ A ++ scm t ++ nn) ++
          (generateItemContent cfg tpl item list ++
            (nn ++ ecm t ++ B ++ ebm t ++ ['\n']))
      from by simp [List.append_assoc]]
    exact strIncludes_append_left _ (strIncludes_append_right _ hinc)

set_option maxRecDepth 100000 in
/-- Witness for C2: a concrete prior document for token `cafe` with
`KEEPA`/`KEEPB` injected into the zones, merged with the title `NEW`. -/
theorem claim_C2_witness :
    generateNoteContent cfgW tplW itemW listW
        (some (spliceDoc "f".toList "cafe".toList "KEEPA".toList
          "old".toList "KEEPB".toList ['\n'])) "beef".toList =
      generateFrontmatter cfgW itemW listW ++ sbm "cafe".toList ++
        "KEEPA".toList ++ scm "cafe".toList ++ nn ++
        generateItemContent cfgW tplW itemW listW ++ nn ++
        ecm "cafe".toList ++ "KEEPB".toList ++ ebm "cafe".toList ++ ['\n'] ∧
    extractItemId (generateNoteContent cfgW tplW itemW listW
        (some (spliceDoc "f".toList "cafe".toList "KEEPA".toList
          "old".toList "KEEPB".toList ['\n'])) "beef".toList) =
      some "cafe".toList ∧
    (strIncludes (generateItemContent cfgW tplW itemW listW)
        "NEW".toList = true →
      strIncludes (generateNoteContent cfgW tplW itemW listW
        (some (spliceDoc "f".toList "cafe".toList "KEEPA".toList
          "old".toList "KEEPB".toList ['\n'])) "beef".toList)
        "NEW".toList = true) :=
  claim_C2 cfgW tplW itemW listW "cafe".toList "f".toList "KEEPA".toList
    "old".toList "KEEPB".toList "beef".toList "NEW".toList
    (by rfl) (by decide) (by decide) (by decide) (by decide) (by rfl)
    (by rfl) (by rfl) (by rfl) (by decide)

set_option maxRecDepth 100000 in
/-- Counterexample to C2 as stated: injecting the marker text
`%%END-cafe%%Z` into the first zone makes the outer-end search hit inside
that zone; the swapped substring bounds then excise the second zone, whose
injected text `BBBB` is lost. -/
theorem claim_C2_cex :
    strIncludes (spliceDoc "f".toList "cafe".toList "%%END-cafe%%Z".toList
        "old".toList "BBBB".toList ['\n']) "BBBB".toList = true ∧
    strIncludes (generateNoteContent cfgW tplW itemW listW
        (some (spliceDoc "f".toList "cafe".toList "%%END-cafe%%Z".toList
          "old".toList "BBBB".toList ['\n'])) "beef".toList)
      "BBBB".toList = false := by
  decide

/-! ## C8: the consolidated To Do document -/

/-- C8 (corrected): for a consolidated To Do document whose prior version
exists, is not skipped by the lock, and yields a token, the token is indeed
reused — but the user-comment zones are NOT preserved: the document is
rebuilt from scratch with the fixed placeholder text in both zones, and
only the task check-states are carried over from the prior document. -/
theorem claim_C8 (cfg : Settings) (list : ListyList) (e t freshTok : Str)
    (hne : e.isEmpty = false)
    (hlock : (cfg.enableNoteLocking && lockMatch e) = false)
    (hex : extractItemId e = some t) :
    createConsolidatedContent cfg list (some e) freshTok =
      some (consolidatedHeader list ++
        sbm t ++ (nn ++ PH ++ nn) ++ scm t ++ nn ++
        ((list.items.map (taskLine (parseTasks e))).flatten) ++
        ['\n'] ++ ecm t ++ (nn ++ PH ++ nn) ++ ebm t ++ ['\n']) := by
  unfold createConsolidatedContent
  dsimp only
  rw [hlock, hne, hex]
  simp [consolidatedContent, List.append_assoc]

set_option maxRecDepth 100000 in
/-- Witness for C8: a prior document carrying token `ab`; its comment zones
come out as the placeholder, not as the prior text. -/
theorem claim_C8_witness :
    createConsolidatedContent cfgW listTd (some priorAb) "ffff".toList =
      some (consolidatedHeader listTd ++
        sbm "ab".toList ++ (nn ++ PH ++ nn) ++ scm "ab".toList ++ nn ++
        ((listTd.items.map (taskLine (parseTasks priorAb))).flatten) ++
        ['\n'] ++ ecm "ab".toList ++ (nn ++ PH ++ nn) ++ ebm "ab".toList ++
        ['\n']) :=
  claim_C8 cfgW listTd priorAb "ab".toList "ffff".toList
    (by decide) (by decide) (by decide)

set_option maxRecDepth 100000 in
/-- Counterexample to C8 as stated: a prior consolidated document with all
four markers intact and `KEEPME` in both comment zones; the regenerated
document reuses token `ab` but no longer contains `KEEPME`. -/
theorem claim_C8_cex :
    strIncludes priorTd "KEEPME".toList = true ∧
    (createConsolidatedContent cfgW listTd (some priorTd) "ffff".toList).map
      (fun out => (strIncludes out (sbm "ab".toList),
        strIncludes out "KEEPME".toList)) = some (true, false) := by
  decide

end Listy
